import Mathlib

/-!
Verification development for `bravado/mapping/model.py`.

The module translates the `definitions` section of a swagger/JSON-schema
document into model types: it tags model schemas (`tag_models`), repairs
malformed `$ref` values (`fix_malformed_model_refs`), builds a registry of
model types (`build_models` / `create_model_type`), constructs instances
(`set_props`), compares them (`compare`) and flattens them to plain
dictionaries (`create_flat_dict`).

Schema documents are embedded as `JVal` (JSON-like trees whose objects are
association lists, mirroring Python dicts with unique keys).  Runtime values
(model instances, lists, plain dicts, primitives) are embedded as `PyVal`.
The flattening function is additionally given a store-passing embedding
(`hflat`) over an explicit heap of dictionary cells, in order to state the
frame property (flattening never mutates its input).
-/

namespace Bravado

/-- JSON-like values of a schema document.  Objects are association lists;
Python dict keys are unique, which theorems assume via `Nodup` hypotheses. -/
inductive JVal where
  | null
  | str (s : String)
  | num (n : Int)
  | boolean (b : Bool)
  | arr (xs : List JVal)
  | obj (fields : List (String × JVal))

/-- Python dict assignment `d[k] = v`: if the key is present its entry is
updated in place (keeping its position), otherwise the entry is appended. -/
def dict_assign {α : Type} (d : List (String × α)) (k : String) (v : α) :
    List (String × α) :=
  if (d.lookup k).isSome then
    d.map (fun kv => (kv.1, if kv.1 = k then v else kv.2))
  else
    d ++ [(k, v)]

/-- `MODEL_MARKER` from the source: models in `#/definitions` are tagged with
this key. -/
def MODEL_MARKER : String := "x-model"

/-- Body of the `tag_models` loop for a single `(model_name, model_spec)`
entry of `definitions`: a missing (or `None`-valued) `type` is defaulted to
`"object"`, and `"object"`-typed entries get `MODEL_MARKER` set to the model
name. -/
def tag_model_spec (model_name : String) (fields : List (String × JVal)) :
    List (String × JVal) :=
  match fields.lookup "type" with
  | Option.none =>
      dict_assign (dict_assign fields "type" (JVal.str "object")) MODEL_MARKER
        (JVal.str model_name)
  | some JVal.null =>
      dict_assign (dict_assign fields "type" (JVal.str "object")) MODEL_MARKER
        (JVal.str model_name)
  | some (JVal.str s) =>
      if s = "object" then dict_assign fields MODEL_MARKER (JVal.str model_name)
      else fields
  | some _ => fields

/-- `tag_models` restricted to the `definitions` mapping it iterates over;
a non-dict entry makes the Python loop raise (`model_spec.get` on a
non-dict), embedded as an error. -/
def tag_definitions : List (String × JVal) → Except String (List (String × JVal))
  | [] => Except.ok []
  | (model_name, model_spec) :: rest =>
      match model_spec with
      | JVal.obj fields =>
          match tag_definitions rest with
          | Except.ok rest' => Except.ok ((model_name, JVal.obj (tag_model_spec model_name fields)) :: rest')
          | Except.error e => Except.error e
      | _ => Except.error "AttributeError"

/-- `is_model`: a schema fragment is a model iff it carries `MODEL_MARKER`
as a key (`MODEL_MARKER in spec`). -/
def is_model (fields : List (String × JVal)) : Bool :=
  (fields.map Prod.fst).contains MODEL_MARKER

/-- Tests whether a `$ref` value matches a declared model name
(`v in model_names`); only a string can equal a list element here. -/
def refMatch (names : List String) : JVal → Bool
  | JVal.str s => names.contains s
  | _ => false

/-- The repair performed by `fix_malformed_model_refs`:
`{$ref: Name}` becomes `{$ref: #/definitions/Name}`. -/
def fix_canonical : JVal → JVal
  | JVal.str s => JVal.str ("#/definitions/" ++ s)
  | v => v

mutual

/-- The inner `descend` of `fix_malformed_model_refs`: walk literal
mappings and sequences; rewrite entries whose key is `$ref` and whose value
is a bare declared model name to canonical pointer form. -/
def fix_descend (names : List String) : JVal → JVal
  | JVal.obj fields => JVal.obj (fix_descend_obj names fields)
  | JVal.arr xs => JVal.arr (fix_descend_arr names xs)
  | JVal.null => JVal.null
  | JVal.str s => JVal.str s
  | JVal.num n => JVal.num n
  | JVal.boolean b => JVal.boolean b

/-- `descend` over the entries of a mapping.  A rewritten value is a string,
on which the source's recursive `descend(v)` call is the identity, so the
rewritten entry keeps the canonical string. -/
def fix_descend_obj (names : List String) :
    List (String × JVal) → List (String × JVal)
  | [] => []
  | (k, v) :: rest =>
      (k, if k = "$ref" ∧ refMatch names v = true then fix_canonical v
          else fix_descend names v) :: fix_descend_obj names rest

/-- `descend` over the elements of a sequence. -/
def fix_descend_arr (names : List String) : List JVal → List JVal
  | [] => []
  | x :: xs => fix_descend names x :: fix_descend_arr names xs

end

/-- Model names declared directly under `definitions`
(`[model_name for model_name in spec.get('definitions', {})]`). -/
def model_names (spec : JVal) : List String :=
  match spec with
  | JVal.obj fields =>
      match fields.lookup "definitions" with
      | some (JVal.obj defs) => defs.map Prod.fst
      | _ => []
  | _ => []

/-- `fix_malformed_model_refs`: rewrite `{$ref: Name}` to
`{$ref: #/definitions/Name}` whenever `Name` is declared under
`definitions`. -/
def fix_malformed_model_refs (spec : JVal) : JVal :=
  fix_descend (model_names spec) spec

/-- Modelled from the spec: `swagger_type.get_swagger_types` (module not
under `src/`) produces the descriptor's "property-name → declared-type
mapping (verbatim from `properties`)"; declared types are kept verbatim. -/
def get_swagger_types (props : List (String × JVal)) : List (String × JVal) :=
  props

/-- The data content of the dynamic class built by `create_model_type`:
its name, its `_swagger_types` mapping and its `_required` value. -/
structure Descr where
  name : String
  swagger_types : List (String × JVal)
  required : Option JVal

/-- `create_model_type`: `model_spec['properties']` raises a `KeyError` when
the key is missing (embedded as `Except.error`); the properties mapping must
itself be a dict for `get_swagger_types` to iterate it. -/
def create_model_type (model_name : String) (model_spec : JVal) :
    Except String Descr :=
  match model_spec with
  | JVal.obj fields =>
      match fields.lookup "properties" with
      | some (JVal.obj props) =>
          Except.ok
            { name := model_name
              swagger_types := get_swagger_types props
              required := fields.lookup "required" }
      | some _ => Except.error "TypeError"
      | Option.none => Except.error "KeyError: properties"
  | _ => Except.error "TypeError"

/-- The loop of `build_models`: each definitions entry allocates one model
type (appended to the table) and registers it under the bare name and the
`#/definitions/` name. -/
def build_models_go (table : List Descr) (registry : List (String × Nat)) :
    List (String × JVal) → Except String (List (String × Nat) × List Descr)
  | [] => Except.ok (registry, table)
  | (model_name, model_spec) :: rest =>
      match create_model_type model_name model_spec with
      | Except.error e => Except.error e
      | Except.ok d =>
          build_models_go (table ++ [d])
            (dict_assign (dict_assign registry model_name table.length)
              ("#/definitions/" ++ model_name) table.length)
            rest

/-- `build_models`: builds the models contained in a `#/definitions` dict,
making each model type available under both its simple name and its
`$ref`-style name. -/
def build_models (definitions_spec : List (String × JVal)) :
    Except String (List (String × Nat) × List Descr) :=
  build_models_go [] [] definitions_spec

/-- Path elements for addressing a node of a `JVal` tree. -/
inductive PathEl where
  | key (k : String)
  | idx (i : Nat)
deriving DecidableEq, Repr

/-- Look up the node of a `JVal` tree at a path of object keys and array
indices. -/
def getPath : JVal → List PathEl → Option JVal
  | v, [] => some v
  | JVal.obj fields, PathEl.key k :: p =>
      match fields.lookup k with
      | some v => getPath v p
      | Option.none => Option.none
  | JVal.arr xs, PathEl.idx i :: p =>
      match xs.get? i with
      | some v => getPath v p
      | Option.none => Option.none
  | _, _ => Option.none

/-! ## Runtime values

Model instances and the plain values they hold.  An instance carries its
class name, its class-level `_required` value and its `__dict__` as an
association list; only instances "have a `__dict__`" in the sense of
`hasattr(model, '__dict__')`. -/

/-- Python runtime values handled by `set_props`, `compare` and
`create_flat_dict`. -/
inductive PyVal where
  | none
  | prim (s : String)
  | int (n : Int)
  | pylist (xs : List PyVal)
  | pydict (fields : List (String × PyVal))
  | inst (cls : String) (required : Option (List String)) (fields : List (String × PyVal))

/-- `hasattr(v, '__dict__')`: among the runtime values handled here, only
model instances expose an attribute mapping. -/
def hasDict : PyVal → Bool
  | PyVal.inst _ _ _ => true
  | _ => false

/-- `x is None` (constructor test used by the flattening list
comprehension's filter). -/
def isNoneB : PyVal → Bool
  | PyVal.none => true
  | _ => false

mutual

/-- `compare`: equivalence of two model values.  A value without a
`__dict__` is never equal to a model instance; otherwise the `__dict__`s
are compared as Python dicts after dropping any `_raw` key. -/
def compare (a b : PyVal) : Bool :=
  match a, b with
  | PyVal.inst _ _ d1, PyVal.inst _ _ d2 =>
      (d1.filter (fun kv => kv.1 ≠ "_raw")).length
          == (d2.filter (fun kv => kv.1 ≠ "_raw")).length
        && pyEqDictSub true d1 d2
  | _, _ => false
termination_by 2 * (sizeOf a + sizeOf b)
decreasing_by all_goals (simp_wf; try omega)

/-- Python `==` on runtime values: instances use `compare` (their
generated `__eq__`), lists compare element-wise, plain dicts compare as
mappings, primitives compare by value, everything else is unequal. -/
def pyEq (a b : PyVal) : Bool :=
  match a, b with
  | PyVal.inst c1 r1 d1, b => compare (PyVal.inst c1 r1 d1) b
  | a, PyVal.inst c2 r2 d2 => compare (PyVal.inst c2 r2 d2) a
  | PyVal.none, PyVal.none => true
  | PyVal.prim s, PyVal.prim t => s == t
  | PyVal.int m, PyVal.int n => m == n
  | PyVal.pylist xs, PyVal.pylist ys => pyEqList xs ys
  | PyVal.pydict d1, PyVal.pydict d2 => d1.length == d2.length && pyEqDictSub false d1 d2
  | _, _ => false
termination_by 2 * (sizeOf a + sizeOf b) + 1
decreasing_by all_goals (simp_wf; try omega)

/-- Element-wise `==` of two Python lists. -/
def pyEqList (l1 l2 : List PyVal) : Bool :=
  match l1, l2 with
  | [], [] => true
  | x :: xs, y :: ys => pyEq x y && pyEqList xs ys
  | _, _ => false
termination_by 2 * (sizeOf l1 + sizeOf l2)
decreasing_by all_goals (simp_wf; try omega)

/-- Each entry of the first dict (skipping `_raw` when `ignoreRaw` is set)
must be present in the second dict with a `==`-equal value. -/
def pyEqDictSub (ignoreRaw : Bool) (d1 d2 : List (String × PyVal)) : Bool :=
  match d1 with
  | [] => true
  | (k, v) :: rest =>
      if ignoreRaw ∧ k = "_raw" then pyEqDictSub ignoreRaw rest d2
      else pyEqLookup k v d2 && pyEqDictSub ignoreRaw rest d2
termination_by 2 * (sizeOf d1 + sizeOf d2) + 1
decreasing_by all_goals (simp_wf; try omega)

/-- Membership with value comparison: `k in d2 and d2[k] == v`. -/
def pyEqLookup (k : String) (v : PyVal) (d2 : List (String × PyVal)) : Bool :=
  match d2 with
  | [] => false
  | (k2, w) :: rest => if k = k2 then pyEq v w else pyEqLookup k v rest
termination_by 2 * (sizeOf v + sizeOf d2)
decreasing_by all_goals (simp_wf; try omega)

end

/-! ## Instance construction (`set_props`) -/

/-- The `for prop_name, prop_swagger_type in types.iteritems()` loop of
`set_props`, threading the pending argument-key list.  The swagger type
`τ`, host type `π`, `swagger_to_py_type` and `get_instance` (external
Primitive Type Mapper, not part of this core) are parameters.  Returns the
assigned attributes and the leftover argument keys. -/
def set_props_loop {τ π : Type} (swagger_to_py_type : τ → π)
    (get_instance : π → PyVal) (kwargs : List (String × PyVal)) :
    List (String × τ) → List String → List (String × PyVal) × List String
  | [], argKeys => ([], argKeys)
  | (propName, propType) :: rest, argKeys =>
      if propName ∈ argKeys then
        let r := set_props_loop swagger_to_py_type get_instance kwargs rest
          (argKeys.erase propName)
        ((propName, (kwargs.lookup propName).getD PyVal.none) :: r.1, r.2)
      else
        let r := set_props_loop swagger_to_py_type get_instance kwargs rest argKeys
        ((propName, get_instance (swagger_to_py_type propType)) :: r.1, r.2)

/-- `set_props`: assign each declared property the supplied value or a
type default; if any argument keys remain unconsumed, raise
`AttributeError(" %s are not defined for %s." % (arg_keys, model))` —
embedded as an error carrying the leftover keys and the model's class
name. -/
def set_props {τ π : Type} (cls : String) (swagger_to_py_type : τ → π)
    (get_instance : π → PyVal) (types : List (String × τ))
    (kwargs : List (String × PyVal)) :
    Except (List String × String) (List (String × PyVal)) :=
  let r := set_props_loop swagger_to_py_type get_instance kwargs types
    (kwargs.map Prod.fst)
  if r.2 = [] then Except.ok r.1 else Except.error (r.2, cls)

/-! ## Flattening (`create_flat_dict`) -/

mutual

/-- `create_flat_dict`: a value without a `__dict__` is returned as-is;
an instance's `__dict__` is flattened entry-wise into a plain dict. -/
def create_flat_dict (v : PyVal) : Except String PyVal :=
  match v with
  | PyVal.inst _ req fields =>
      match flat_fields req fields with
      | Except.ok d => Except.ok (PyVal.pydict d)
      | Except.error e => Except.error e
  | PyVal.none => Except.ok PyVal.none
  | PyVal.prim s => Except.ok (PyVal.prim s)
  | PyVal.int n => Except.ok (PyVal.int n)
  | PyVal.pylist xs => Except.ok (PyVal.pylist xs)
  | PyVal.pydict d => Except.ok (PyVal.pydict d)
termination_by sizeOf v

/-- The `for k, v in model.__dict__.iteritems()` loop of
`create_flat_dict`: lists are flattened element-wise, a `None` value is
either a required-field error or dropped
(`model._required and k in model._required`), and any other value is
flattened recursively. -/
def flat_fields (req : Option (List String))
    (l : List (String × PyVal)) : Except String (List (String × PyVal)) :=
  match l with
  | [] => Except.ok []
  | (k, v) :: rest =>
      match v with
      | PyVal.pylist xs =>
          match flat_list xs with
          | Except.error e => Except.error e
          | Except.ok ys =>
              match flat_fields req rest with
              | Except.error e => Except.error e
              | Except.ok d => Except.ok ((k, PyVal.pylist ys) :: d)
      | PyVal.none =>
          if (req.getD []).contains k then
            Except.error ("Required field " ++ k ++ " can not be None")
          else flat_fields req rest
      | PyVal.prim s =>
          match create_flat_dict (PyVal.prim s) with
          | Except.error e => Except.error e
          | Except.ok w =>
              match flat_fields req rest with
              | Except.error e => Except.error e
              | Except.ok d => Except.ok ((k, w) :: d)
      | PyVal.int n =>
          match create_flat_dict (PyVal.int n) with
          | Except.error e => Except.error e
          | Except.ok w =>
              match flat_fields req rest with
              | Except.error e => Except.error e
              | Except.ok d => Except.ok ((k, w) :: d)
      | PyVal.pydict d0 =>
          match create_flat_dict (PyVal.pydict d0) with
          | Except.error e => Except.error e
          | Except.ok w =>
              match flat_fields req rest with
              | Except.error e => Except.error e
              | Except.ok d => Except.ok ((k, w) :: d)
      | PyVal.inst c r f =>
          match create_flat_dict (PyVal.inst c r f) with
          | Except.error e => Except.error e
          | Except.ok w =>
              match flat_fields req rest with
              | Except.error e => Except.error e
              | Except.ok d => Except.ok ((k, w) :: d)
termination_by sizeOf l

/-- `[create_flat_dict(x) for x in v if x is not None]`. -/
def flat_list (l : List PyVal) : Except String (List PyVal) :=
  match l with
  | [] => Except.ok []
  | x :: xs =>
      match x with
      | PyVal.none => flat_list xs
      | x =>
          match create_flat_dict x with
          | Except.error e => Except.error e
          | Except.ok y =>
              match flat_list xs with
              | Except.error e => Except.error e
              | Except.ok ys => Except.ok (y :: ys)
termination_by sizeOf l

end

/-- The required-null occurrences that can raise the flattening error: a
property of an instance that is null and listed in that instance's required
set, either in the value itself or in a value reached through the
flattening traversal (a field value, or an element of a list-valued
field). -/
inductive offending : PyVal → String → Prop where
  | here (cls : String) (req : Option (List String))
      (fields : List (String × PyVal)) (k : String) :
      (k, PyVal.none) ∈ fields → (req.getD []).contains k = true →
      offending (PyVal.inst cls req fields) k
  | field (cls : String) (req : Option (List String))
      (fields : List (String × PyVal)) (k : String) (v : PyVal) (p : String) :
      (k, v) ∈ fields → offending v p →
      offending (PyVal.inst cls req fields) p
  | elem (xs : List PyVal) (x : PyVal) (p : String) :
      x ∈ xs → offending x p → offending (PyVal.pylist xs) p

/-! ## Store-passing embedding of `create_flat_dict`

To state that flattening never mutates its input, the same source function
is embedded once more with the dictionaries (`model.__dict__` and the
`model_dict` copies) living in an explicit heap of cells addressed by
allocation index.  `copy(model.__dict__)` allocates a fresh cell;
`model_dict[k] = ...` and `model_dict.pop(k)` write to that fresh cell.
Recursion through the heap is not structural, so the embedding carries
fuel; `FuelRes.out` marks fuel exhaustion and never occurs for the inputs
the theorems evaluate. -/

/-- A heap value: instances and plain dicts refer to a heap cell holding
their dictionary. -/
inductive HVal where
  | none
  | prim (s : String)
  | pylist (xs : List HVal)
  | pydict (dref : Nat)
  | inst (cls : String) (required : Option (List String)) (dref : Nat)

/-- A heap cell: one Python dict. -/
abbrev HDict := List (String × HVal)

/-- The heap: dict cells addressed by allocation index. -/
abbrev Store := List HDict

/-- Read a cell (out-of-range reads never occur on well-formed inputs). -/
def cellGet (σ : Store) (r : Nat) : HDict :=
  (List.get? σ r).getD []

/-- `copy(d)`: allocate a fresh cell holding `d`, returning its address. -/
def alloc (σ : Store) (d : HDict) : Nat × Store :=
  (σ.length, σ ++ [d])

/-- `model_dict[k] = v` on the cell at `r` (the key is present, its entry
is updated in place). -/
def setk (σ : Store) (r : Nat) (k : String) (v : HVal) : Store :=
  σ.set r ((cellGet σ r).map (fun kv => (kv.1, if kv.1 = k then v else kv.2)))

/-- `model_dict.pop(k)` on the cell at `r`. -/
def popk (σ : Store) (r : Nat) (k : String) : Store :=
  σ.set r ((cellGet σ r).filter (fun kv => kv.1 ≠ k))

/-- Result of a fueled stateful computation. -/
inductive FuelRes (α : Type) where
  | out
  | err (e : String)
  | ok (a : α)

mutual

/-- Store-passing `create_flat_dict`: flattening an instance copies its
`__dict__` into a fresh cell and rewrites that copy entry by entry; any
other value is returned unchanged with the store untouched. -/
def hflat (fuel : Nat) (σ : Store) (v : HVal) : FuelRes (HVal × Store) :=
  match fuel with
  | 0 => FuelRes.out
  | fuel + 1 =>
      match v with
      | HVal.inst _ req dref =>
          let d := cellGet σ dref
          let a := alloc σ d
          match hflat_fields fuel a.2 a.1 req d with
          | FuelRes.out => FuelRes.out
          | FuelRes.err e => FuelRes.err e
          | FuelRes.ok σ2 => FuelRes.ok (HVal.pydict a.1, σ2)
      | v => FuelRes.ok (v, σ)
termination_by (fuel, sizeOf v)

/-- The entry loop of `create_flat_dict`, writing into the fresh copy at
`cref`. -/
def hflat_fields (fuel : Nat) (σ : Store) (cref : Nat)
    (req : Option (List String)) (d : HDict) : FuelRes Store :=
  match d with
  | [] => FuelRes.ok σ
  | (k, v) :: rest =>
      match v with
      | HVal.pylist xs =>
          match hflat_list fuel σ xs with
          | FuelRes.out => FuelRes.out
          | FuelRes.err e => FuelRes.err e
          | FuelRes.ok r =>
              hflat_fields fuel (setk r.2 cref k (HVal.pylist r.1)) cref req rest
      | HVal.none =>
          if (req.getD []).contains k then
            FuelRes.err ("Required field " ++ k ++ " can not be None")
          else hflat_fields fuel (popk σ cref k) cref req rest
      | w =>
          match hflat fuel σ w with
          | FuelRes.out => FuelRes.out
          | FuelRes.err e => FuelRes.err e
          | FuelRes.ok r => hflat_fields fuel (setk r.2 cref k r.1) cref req rest
termination_by (fuel, sizeOf d)

/-- The list comprehension of `create_flat_dict`, threading the store. -/
def hflat_list (fuel : Nat) (σ : Store) (l : List HVal) :
    FuelRes (List HVal × Store) :=
  match l with
  | [] => FuelRes.ok ([], σ)
  | x :: xs =>
      match x with
      | HVal.none => hflat_list fuel σ xs
      | x =>
          match hflat fuel σ x with
          | FuelRes.out => FuelRes.out
          | FuelRes.err e => FuelRes.err e
          | FuelRes.ok r =>
              match hflat_list fuel r.2 xs with
              | FuelRes.out => FuelRes.out
              | FuelRes.err e => FuelRes.err e
              | FuelRes.ok rs => FuelRes.ok (r.1 :: rs.1, rs.2)
termination_by (fuel, sizeOf l)

end

/-! ## Helper lemmas on association lists -/

theorem lookup_cons_self {α : Type} (k : String) (v : α) (l : List (String × α)) :
    ((k, v) :: l).lookup k = some v := by
  simp [List.lookup]

theorem lookup_cons_ne {α : Type} (k k' : String) (v : α) (l : List (String × α))
    (h : k' ≠ k) : ((k, v) :: l).lookup k' = l.lookup k' := by
  simp [List.lookup, beq_false_of_ne h]

theorem lookup_isSome_iff {α : Type} (m : List (String × α)) (k : String) :
    (m.lookup k).isSome = true ↔ k ∈ m.map Prod.fst := by
  induction m with
  | nil => simp [List.lookup]
  | cons kv rest ih =>
      obtain ⟨k1, v1⟩ := kv
      by_cases h : k = k1
      · subst h; simp [List.lookup]
      · simp [List.lookup, beq_false_of_ne h, ih, h]

theorem lookup_eq_none_of_not_mem {α : Type} (m : List (String × α)) (k : String)
    (h : k ∉ m.map Prod.fst) : m.lookup k = Option.none := by
  cases hm : m.lookup k with
  | none => rfl
  | some w =>
      exact absurd ((lookup_isSome_iff m k).mp (by simp [hm])) h

theorem lookup_map_update_self {α : Type} (m : List (String × α)) (k : String) (v : α)
    (h : (m.lookup k).isSome = true) :
    (m.map (fun kv => (kv.1, if kv.1 = k then v else kv.2))).lookup k = some v := by
  induction m with
  | nil => simp [List.lookup] at h
  | cons kv rest ih =>
      obtain ⟨k1, v1⟩ := kv
      by_cases hk : k1 = k
      · subst hk; simp [List.lookup]
      · have hne : k ≠ k1 := fun hh => hk hh.symm
        simp only [List.lookup, beq_false_of_ne hne] at h
        simp only [List.map_cons, hk, if_false, List.lookup, beq_false_of_ne hne]
        exact ih h

theorem lookup_map_update_ne {α : Type} (m : List (String × α)) (k k' : String) (v : α)
    (hne : k' ≠ k) :
    (m.map (fun kv => (kv.1, if kv.1 = k then v else kv.2))).lookup k' = m.lookup k' := by
  induction m with
  | nil => simp
  | cons kv rest ih =>
      obtain ⟨k1, v1⟩ := kv
      by_cases hk : k1 = k
      · subst hk
        simp only [List.map_cons, List.lookup, beq_false_of_ne hne]
        exact ih
      · simp only [List.map_cons, hk, if_false]
        by_cases hk' : k' = k1
        · subst hk'; simp [List.lookup]
        · simp only [List.lookup, beq_false_of_ne hk']
          exact ih

theorem lookup_append_right {α : Type} (m l : List (String × α)) (k : String)
    (h : m.lookup k = Option.none) : (m ++ l).lookup k = l.lookup k := by
  induction m with
  | nil => simp
  | cons kv rest ih =>
      obtain ⟨k1, v1⟩ := kv
      by_cases hk : k = k1
      · subst hk; simp [List.lookup] at h
      · simp only [List.lookup, beq_false_of_ne hk] at h
        simp only [List.cons_append, List.lookup, beq_false_of_ne hk]
        exact ih h

theorem dict_assign_lookup_self {α : Type} (m : List (String × α)) (k : String) (v : α) :
    (dict_assign m k v).lookup k = some v := by
  unfold dict_assign
  by_cases h : (m.lookup k).isSome
  · rw [if_pos h]
    exact lookup_map_update_self m k v h
  · rw [if_neg h]
    rw [lookup_append_right m _ k (by cases hm : m.lookup k with
      | none => rfl
      | some w => rw [hm] at h; simp at h)]
    simp [List.lookup]

theorem dict_assign_lookup_ne {α : Type} (m : List (String × α)) (k k' : String) (v : α)
    (hne : k' ≠ k) : (dict_assign m k v).lookup k' = m.lookup k' := by
  unfold dict_assign
  by_cases h : (m.lookup k).isSome
  · rw [if_pos h]
    exact lookup_map_update_ne m k k' v hne
  · rw [if_neg h]
    induction m with
    | nil => simp [List.lookup, beq_false_of_ne hne]
    | cons kv rest ih =>
        obtain ⟨k1, v1⟩ := kv
        by_cases hk' : k' = k1
        · subst hk'; simp [List.lookup]
        · simp only [List.cons_append, List.lookup, beq_false_of_ne hk']
          by_cases hk : k = k1
          · subst hk; simp [List.lookup] at h
          · exact ih (by simpa [List.lookup, beq_false_of_ne hk] using h)

/-! ## Registry lemmas and claims C2, C4 -/

theorem can_ne_self (n : String) : "#/definitions/" ++ n ≠ n := by
  intro h
  have := congrArg String.length h
  simp [String.length_append] at this
  revert this
  decide

theorem can_inj {a b : String} (h : "#/definitions/" ++ a = "#/definitions/" ++ b) :
    a = b := by
  have := congrArg String.data h
  simp [String.data_append] at this
  exact String.ext this

theorem build_models_go_spec (defs : List (String × JVal)) :
    ∀ (table : List Descr) (registry : List (String × Nat)),
    (∀ nv ∈ defs, ∃ d, create_model_type nv.1 nv.2 = Except.ok d) →
    ∃ reg' table',
      build_models_go table registry defs = Except.ok (reg', table') ∧
      table'.length = table.length + defs.length ∧
      (∀ i, i < table.length → table'.get? i = table.get? i) ∧
      (∀ j (hj : j < defs.length), ∃ d,
          create_model_type (defs.get ⟨j, hj⟩).1 (defs.get ⟨j, hj⟩).2 = Except.ok d ∧
          table'.get? (table.length + j) = some d) ∧
      (∀ k, k ∉ defs.map Prod.fst →
          k ∉ defs.map (fun nv => "#/definitions/" ++ nv.1) →
          reg'.lookup k = registry.lookup k) ∧
      ((defs.map Prod.fst).Nodup →
       (∀ n ∈ defs.map Prod.fst, ∀ m ∈ defs.map Prod.fst, "#/definitions/" ++ n ≠ m) →
       ∀ j (hj : j < defs.length),
          reg'.lookup (defs.get ⟨j, hj⟩).1 = some (table.length + j) ∧
          reg'.lookup ("#/definitions/" ++ (defs.get ⟨j, hj⟩).1) = some (table.length + j)) := by
  induction defs with
  | nil =>
      intro table registry _
      refine ⟨registry, table, by simp [build_models_go], by simp, fun i _ => rfl, ?_, fun k _ _ => rfl, ?_⟩
      · intro j hj; exact absurd hj (by simp)
      · intro _ _ j hj; exact absurd hj (by simp)
  | cons hd rest ih =>
      obtain ⟨n, sp⟩ := hd
      intro table registry hwf
      obtain ⟨d, hcd⟩ := hwf (n, sp) (List.mem_cons_self _ _)
      obtain ⟨reg', table', heq, hlen, hpres, hidx, hkpres, hreglook⟩ :=
        ih (table ++ [d])
          (dict_assign (dict_assign registry n table.length)
            ("#/definitions/" ++ n) table.length)
          (fun nv hnv => hwf nv (List.mem_cons_of_mem _ hnv))
      refine ⟨reg', table', ?_, ?_, ?_, ?_, ?_, ?_⟩
      · simp only [build_models_go, hcd]
        exact heq
      · simp at hlen ⊢; omega
      · intro i hi
        rw [hpres i (by simp; omega)]
        exact List.get?_append hi
      · intro j hj
        cases j with
        | zero =>
            refine ⟨d, by simpa using hcd, ?_⟩
            rw [Nat.add_zero, hpres table.length (by simp)]
            exact List.get?_concat_length table d
        | succ j' =>
            obtain ⟨d', h1, h2⟩ := hidx j' (by simp at hj ⊢; omega)
            refine ⟨d', by simpa using h1, ?_⟩
            rw [show table.length + (j' + 1) = (table ++ [d]).length + j' by simp; omega]
            exact h2
      · intro k hk1 hk2
        simp only [List.map_cons, List.mem_cons, not_or] at hk1 hk2
        rw [hkpres k hk1.2 hk2.2]
        rw [dict_assign_lookup_ne _ _ _ _ hk2.1, dict_assign_lookup_ne _ _ _ _ hk1.1]
      · intro hnd hcross j hj
        have hnd' : (rest.map Prod.fst).Nodup := by
          simp only [List.map_cons, List.nodup_cons] at hnd
          exact hnd.2
        have hnmem : n ∉ rest.map Prod.fst := by
          simp only [List.map_cons, List.nodup_cons] at hnd
          exact hnd.1
        have hcross' : ∀ a ∈ rest.map Prod.fst, ∀ b ∈ rest.map Prod.fst,
            "#/definitions/" ++ a ≠ b := fun a ha b hb =>
          hcross a (by simp [ha]) b (by simp [hb])
        cases j with
        | zero =>
            have hk1 : n ∉ rest.map Prod.fst := hnmem
            have hk2 : n ∉ rest.map (fun nv => "#/definitions/" ++ nv.1) := by
              intro hmem
              obtain ⟨nv, hnv, hcan⟩ := List.mem_map.mp hmem
              exact hcross nv.1
                (by rw [List.map_cons]
                    exact List.mem_cons_of_mem _ (List.mem_map_of_mem Prod.fst hnv))
                n (by rw [List.map_cons]; exact List.mem_cons_self _ _) hcan
            have hc1 : ("#/definitions/" ++ n) ∉ rest.map Prod.fst := by
              intro hmem
              exact hcross n (by simp) ("#/definitions/" ++ n) (by simp [hmem]) rfl
            have hc2 : ("#/definitions/" ++ n) ∉
                rest.map (fun nv => "#/definitions/" ++ nv.1) := by
              intro hmem
              obtain ⟨nv, hnv, hcan⟩ := List.mem_map.mp hmem
              have : nv.1 = n := can_inj hcan
              exact hnmem (this ▸ List.mem_map_of_mem _ hnv)
            constructor
            · rw [show ((n, sp) :: rest).get ⟨0, hj⟩ = (n, sp) from rfl]
              rw [hkpres n hk1 hk2]
              rw [dict_assign_lookup_ne _ _ _ _ (fun h => can_ne_self n h.symm)]
              rw [dict_assign_lookup_self]
              simp
            · rw [show ((n, sp) :: rest).get ⟨0, hj⟩ = (n, sp) from rfl]
              rw [hkpres _ hc1 hc2]
              rw [dict_assign_lookup_self]
              simp
        | succ j' =>
            have hj' : j' < rest.length := by simp at hj; omega
            obtain ⟨h1, h2⟩ := hreglook hnd' hcross' j' hj'
            constructor
            · rw [show ((n, sp) :: rest).get ⟨j' + 1, hj⟩ = rest.get ⟨j', hj'⟩ from rfl]
              rw [h1]
              congr 1
              simp
              omega
            · rw [show ((n, sp) :: rest).get ⟨j' + 1, hj⟩ = rest.get ⟨j', hj'⟩ from rfl]
              rw [h2]
              congr 1
              simp
              omega

theorem dict_assign_isSome_mono {α : Type} (m : List (String × α)) (k k' : String)
    (v : α) (h : (m.lookup k').isSome = true) :
    ((dict_assign m k v).lookup k').isSome = true := by
  by_cases hk : k' = k
  · subst hk; rw [dict_assign_lookup_self]; rfl
  · rw [dict_assign_lookup_ne _ _ _ _ hk]; exact h

theorem dict_assign_isSome_self {α : Type} (m : List (String × α)) (k : String)
    (v : α) : ((dict_assign m k v).lookup k).isSome = true := by
  rw [dict_assign_lookup_self]; rfl

theorem build_models_go_keys (defs : List (String × JVal)) :
    ∀ (table : List Descr) (registry : List (String × Nat)) reg' table',
    build_models_go table registry defs = Except.ok (reg', table') →
    ∀ k, (k ∈ defs.map Prod.fst ∨ (registry.lookup k).isSome = true) →
    (reg'.lookup k).isSome = true := by
  induction defs with
  | nil =>
      intro table registry reg' table' heq k hk
      cases heq
      rcases hk with hk | hk
      · simp at hk
      · exact hk
  | cons hd rest ih =>
      obtain ⟨n, sp⟩ := hd
      intro table registry reg' table' heq k hk
      rw [show build_models_go table registry ((n, sp) :: rest) =
        match create_model_type n sp with
        | Except.error e => Except.error e
        | Except.ok d => build_models_go (table ++ [d])
            (dict_assign (dict_assign registry n table.length)
              ("#/definitions/" ++ n) table.length) rest from rfl] at heq
      cases hcd : create_model_type n sp with
      | error e => rw [hcd] at heq; exact absurd heq (by simp)
      | ok d =>
          rw [hcd] at heq
          rcases hk with hk | hk
          · simp only [List.map_cons, List.mem_cons] at hk
            rcases hk with hk | hk
            · subst hk
              exact ih _ _ _ _ heq k (Or.inr
                (dict_assign_isSome_mono _ _ _ _ (dict_assign_isSome_self _ _ _)))
            · exact ih _ _ _ _ heq k (Or.inl hk)
          · exact ih _ _ _ _ heq k (Or.inr
              (dict_assign_isSome_mono _ _ _ _ (dict_assign_isSome_mono _ _ _ _ hk)))

theorem build_models_go_ok_wf (defs : List (String × JVal)) :
    ∀ (table : List Descr) (registry : List (String × Nat)) reg' table',
    build_models_go table registry defs = Except.ok (reg', table') →
    ∀ nv ∈ defs, ∃ d, create_model_type nv.1 nv.2 = Except.ok d := by
  induction defs with
  | nil => intro _ _ _ _ _ nv hnv; simp at hnv
  | cons hd rest ih =>
      obtain ⟨n, sp⟩ := hd
      intro table registry reg' table' heq nv hnv
      rw [show build_models_go table registry ((n, sp) :: rest) =
        match create_model_type n sp with
        | Except.error e => Except.error e
        | Except.ok d => build_models_go (table ++ [d])
            (dict_assign (dict_assign registry n table.length)
              ("#/definitions/" ++ n) table.length) rest from rfl] at heq
      cases hcd : create_model_type n sp with
      | error e => rw [hcd] at heq; exact absurd heq (by simp)
      | ok d =>
          rw [hcd] at heq
          rcases List.mem_cons.mp hnv with h | h
          · subst h; exact ⟨d, hcd⟩
          · exact ih _ _ _ _ heq nv h

/-- C2 (counterexample): a definitions entry of primitive type with no
`properties` key makes the build fail with a `KeyError` instead of
producing a descriptor. -/
theorem c2_counterexample :
    build_models [("Foo", JVal.obj [("type", JVal.str "integer")])]
      = Except.error "KeyError: properties" := rfl

/-- C2 (amended): provided every definitions entry carries a `properties`
mapping, a descriptor is synthesized for every entry — including entries of
primitive or array `type` — and every definitions key produces exactly one
descriptor; no entry is skipped. -/
theorem c2_descriptor_per_entry (defs : List (String × JVal))
    (hwf : ∀ nv ∈ defs, ∃ fields props, nv.2 = JVal.obj fields ∧
        fields.lookup "properties" = some (JVal.obj props)) :
    (∃ rt, build_models defs = Except.ok rt) ∧
    ∀ registry table, build_models defs = Except.ok (registry, table) →
      table.length = defs.length ∧
      (∀ j (hj : j < defs.length), ∃ d,
          create_model_type (defs.get ⟨j, hj⟩).1 (defs.get ⟨j, hj⟩).2 = Except.ok d ∧
          table.get? j = some d) ∧
      (∀ n ∈ defs.map Prod.fst, (registry.lookup n).isSome = true) := by
  have hwf' : ∀ nv ∈ defs, ∃ d, create_model_type nv.1 nv.2 = Except.ok d := by
    intro nv hnv
    obtain ⟨fields, props, h1, h2⟩ := hwf nv hnv
    refine ⟨Descr.mk nv.1 (get_swagger_types props) (fields.lookup "required"), ?_⟩
    rw [show create_model_type nv.1 nv.2 = create_model_type nv.1 (JVal.obj fields) from
      by rw [h1]]
    simp [create_model_type, h2]
  obtain ⟨reg', table', heq, hlen, _, hidx, _, _⟩ := build_models_go_spec defs [] [] hwf'
  refine ⟨⟨(reg', table'), heq⟩, ?_⟩
  intro registry table hok
  have hok2 : (Except.ok (reg', table') : Except String _) =
      Except.ok (registry, table) := heq.symm.trans hok
  obtain ⟨h1, h2⟩ : reg' = registry ∧ table' = table := by
    cases hok2; exact ⟨rfl, rfl⟩
  rw [← h1, ← h2]
  refine ⟨by simpa using hlen, ?_, ?_⟩
  · intro j hj
    simpa using hidx j hj
  · intro n hn
    exact build_models_go_keys defs [] [] reg' table' heq n (Or.inl hn)
/-- C2 (witness): concrete two-entry definitions mapping, one entry of
primitive type (with a `properties` dict): both entries yield descriptors
and both keys resolve. -/
theorem c2_witness :
    ([Descr.mk "Pet" [] Option.none,
      Descr.mk "Num" [] Option.none] : List Descr).length
      = ([("Pet", JVal.obj [("properties", JVal.obj [])]),
          ("Num", JVal.obj [("type", JVal.str "integer"),
            ("properties", JVal.obj [])])] : List (String × JVal)).length ∧
    (([("Pet", 0), ("#/definitions/Pet", 0), ("Num", 1), ("#/definitions/Num", 1)]
        : List (String × Nat)).lookup "Num").isSome = true := by
  have h := (c2_descriptor_per_entry
    [("Pet", JVal.obj [("properties", JVal.obj [])]),
     ("Num", JVal.obj [("type", JVal.str "integer"), ("properties", JVal.obj [])])]
    (by intro nv hnv
        rcases List.mem_cons.mp hnv with h | h
        · subst h; exact ⟨_, _, rfl, rfl⟩
        · rcases List.mem_cons.mp h with h | h
          · subst h; exact ⟨_, _, rfl, rfl⟩
          · simp at h)).2
    [("Pet", 0), ("#/definitions/Pet", 0), ("Num", 1), ("#/definitions/Num", 1)]
    [Descr.mk "Pet" [] Option.none, Descr.mk "Num" [] Option.none]
    rfl
  exact ⟨h.1, by rw [(h.2.2 "Num" (by simp))]⟩

/-- C4 (counterexample): when a declared model name is itself a canonical
pointer name of another declared model, the Python dict overwrite makes the
bare name and the canonical name of model `A` resolve to two different
descriptors. -/
theorem c4_counterexample :
    build_models [("A", JVal.obj [("properties", JVal.obj [])]),
        ("#/definitions/A", JVal.obj [("properties", JVal.obj [])])]
      = Except.ok
          ([("A", 0), ("#/definitions/A", 1),
            ("#/definitions/#/definitions/A", 1)],
           [Descr.mk "A" [] Option.none,
            Descr.mk "#/definitions/A" [] Option.none]) ∧
    ([("A", 0), ("#/definitions/A", 1), ("#/definitions/#/definitions/A", 1)]
        : List (String × Nat)).lookup "A" = some 0 ∧
    ([("A", 0), ("#/definitions/A", 1), ("#/definitions/#/definitions/A", 1)]
        : List (String × Nat)).lookup "#/definitions/A" = some 1 ∧
    ([Descr.mk "A" [] Option.none, Descr.mk "#/definitions/A" [] Option.none]
        |>.get? 0).map Descr.name = some "A" ∧
    ([Descr.mk "A" [] Option.none, Descr.mk "#/definitions/A" [] Option.none]
        |>.get? 1).map Descr.name = some "#/definitions/A" :=
  ⟨rfl, rfl, rfl, rfl, rfl⟩

/-- C4 (amended): assuming the definitions keys are unique (Python dict
keys) and no declared model name equals the canonical pointer name of a
declared model, the registry returned by `build_models` maps each model's
bare name and its canonical `#/definitions/` name to the very same
descriptor (same allocation index). -/
theorem c4_registry_identity (defs : List (String × JVal))
    (registry : List (String × Nat)) (table : List Descr)
    (hok : build_models defs = Except.ok (registry, table))
    (hnd : (defs.map Prod.fst).Nodup)
    (hcross : ∀ n ∈ defs.map Prod.fst, ∀ m ∈ defs.map Prod.fst,
        "#/definitions/" ++ n ≠ m) :
    ∀ n ∈ defs.map Prod.fst,
      (registry.lookup n).isSome = true ∧
      registry.lookup ("#/definitions/" ++ n) = registry.lookup n := by
  have hwf := build_models_go_ok_wf defs [] [] registry table hok
  obtain ⟨reg', table', heq, _, _, _, _, hreglook⟩ := build_models_go_spec defs [] [] hwf
  have hok2 : (Except.ok (reg', table') : Except String _) =
      Except.ok (registry, table) := heq.symm.trans hok
  obtain ⟨h1, h2⟩ : reg' = registry ∧ table' = table := by
    cases hok2; exact ⟨rfl, rfl⟩
  rw [← h1]
  intro n hn
  obtain ⟨nv, hnv, hfst⟩ := List.mem_map.mp hn
  obtain ⟨j, hget⟩ := List.mem_iff_get.mp hnv
  obtain ⟨hbare, hcan⟩ := hreglook hnd hcross j.1 j.2
  rw [hget] at hbare hcan
  subst hfst
  rw [hbare, hcan]
  exact ⟨rfl, rfl⟩

/-- C4 (witness): on a two-model definitions mapping the bare and canonical
names of `Pet` resolve identically. -/
theorem c4_witness :
    (([("Pet", 0), ("#/definitions/Pet", 0), ("Tag", 1), ("#/definitions/Tag", 1)]
        : List (String × Nat)).lookup "Pet").isSome = true ∧
    ([("Pet", 0), ("#/definitions/Pet", 0), ("Tag", 1), ("#/definitions/Tag", 1)]
        : List (String × Nat)).lookup ("#/definitions/" ++ "Pet")
      = ([("Pet", 0), ("#/definitions/Pet", 0), ("Tag", 1), ("#/definitions/Tag", 1)]
        : List (String × Nat)).lookup "Pet" :=
  c4_registry_identity
    [("Pet", JVal.obj [("properties", JVal.obj [])]),
     ("Tag", JVal.obj [("properties", JVal.obj [])])]
    [("Pet", 0), ("#/definitions/Pet", 0), ("Tag", 1), ("#/definitions/Tag", 1)]
    [Descr.mk "Pet" [] Option.none, Descr.mk "Tag" [] Option.none]
    rfl (by decide) (by decide) "Pet" (by decide)

/-! ## Tagging lemmas and claim C6 -/

theorem tag_definitions_lookup (defs : List (String × JVal)) :
    ∀ defs', tag_definitions defs = Except.ok defs' →
    ∀ name fields, defs.lookup name = some (JVal.obj fields) →
    defs'.lookup name = some (JVal.obj (tag_model_spec name fields)) := by
  induction defs with
  | nil => intro defs' _ name fields h; simp [List.lookup] at h
  | cons hd rest ih =>
      obtain ⟨n1, sp1⟩ := hd
      intro defs' heq name fields hlk
      cases sp1 with
      | obj f1 =>
          simp only [tag_definitions] at heq
          cases hr : tag_definitions rest with
          | error e => rw [hr] at heq; exact absurd heq (by simp)
          | ok rest' =>
              rw [hr] at heq
              simp only [] at heq
              have hd' : defs' = (n1, JVal.obj (tag_model_spec n1 f1)) :: rest' := by
                cases heq; rfl
              subst hd'
              by_cases hn : name = n1
              · subst hn
                rw [lookup_cons_self] at hlk ⊢
                have : f1 = fields := by cases hlk; rfl
                subst this
                rfl
              · rw [lookup_cons_ne _ _ _ _ hn] at hlk ⊢
                exact ih rest' hr name fields hlk
      | null => exact absurd heq (by simp [tag_definitions])
      | str s => exact absurd heq (by simp [tag_definitions])
      | num x => exact absurd heq (by simp [tag_definitions])
      | boolean b => exact absurd heq (by simp [tag_definitions])
      | arr xs => exact absurd heq (by simp [tag_definitions])

/-- C6: tagging defaults a missing (or `None`) `type` to `"object"`;
after defaulting, exactly the `"object"`-typed entries receive the
`x-model` marker carrying their own model name; entries of any other type
are left entirely unchanged; and `is_model` holds exactly for fragments
carrying the marker. -/
theorem c6_tag_models (defs defs' : List (String × JVal))
    (hok : tag_definitions defs = Except.ok defs') :
    (∀ name fields, defs.lookup name = some (JVal.obj fields) →
      defs'.lookup name = some (JVal.obj (tag_model_spec name fields)) ∧
      ((fields.lookup "type" = Option.none ∨ fields.lookup "type" = some JVal.null) →
        (tag_model_spec name fields).lookup "type" = some (JVal.str "object") ∧
        (tag_model_spec name fields).lookup MODEL_MARKER = some (JVal.str name)) ∧
      (fields.lookup "type" = some (JVal.str "object") →
        (tag_model_spec name fields).lookup MODEL_MARKER = some (JVal.str name)) ∧
      (∀ t, fields.lookup "type" = some t → t ≠ JVal.null → t ≠ JVal.str "object" →
        tag_model_spec name fields = fields)) ∧
    (∀ g, is_model g = true ↔ (g.lookup MODEL_MARKER).isSome = true) := by
  constructor
  · intro name fields hlk
    refine ⟨tag_definitions_lookup defs defs' hok name fields hlk, ?_, ?_, ?_⟩
    · intro hty
      have hmarker_ne : MODEL_MARKER ≠ "type" := by decide
      rcases hty with hty | hty
      · rw [show tag_model_spec name fields =
          dict_assign (dict_assign fields "type" (JVal.str "object")) MODEL_MARKER
            (JVal.str name) from by
            unfold tag_model_spec; rw [hty]]
        refine ⟨?_, dict_assign_lookup_self _ _ _⟩
        rw [dict_assign_lookup_ne _ _ _ _ (fun h => hmarker_ne h.symm)]
        exact dict_assign_lookup_self _ _ _
      · rw [show tag_model_spec name fields =
          dict_assign (dict_assign fields "type" (JVal.str "object")) MODEL_MARKER
            (JVal.str name) from by
            unfold tag_model_spec; rw [hty]]
        refine ⟨?_, dict_assign_lookup_self _ _ _⟩
        rw [dict_assign_lookup_ne _ _ _ _ (fun h => hmarker_ne h.symm)]
        exact dict_assign_lookup_self _ _ _
    · intro hty
      rw [show tag_model_spec name fields =
        dict_assign fields MODEL_MARKER (JVal.str name) from by
          unfold tag_model_spec; rw [hty]; simp]
      exact dict_assign_lookup_self _ _ _
    · intro t hty hnull hobj
      cases t with
      | null => exact absurd rfl hnull
      | str s =>
          have hs : s ≠ "object" := by
            intro h; subst h; exact hobj rfl
          unfold tag_model_spec
          rw [hty]
          simp [hs]
      | num x => unfold tag_model_spec; rw [hty]
      | boolean b => unfold tag_model_spec; rw [hty]
      | arr xs => unfold tag_model_spec; rw [hty]
      | obj f => unfold tag_model_spec; rw [hty]
  · intro g
    unfold is_model
    rw [lookup_isSome_iff]
    exact List.elem_iff

/-- C6 (witness): an untyped `Pet` entry is defaulted to type `"object"`
and marked; an `integer`-typed `Num` entry is left unchanged; `is_model`
recognizes exactly the marked fragment. -/
theorem c6_witness :
    (tag_model_spec "Pet" []).lookup "type" = some (JVal.str "object") ∧
    (tag_model_spec "Pet" []).lookup MODEL_MARKER = some (JVal.str "Pet") ∧
    tag_model_spec "Num" [("type", JVal.str "integer")]
      = [("type", JVal.str "integer")] ∧
    is_model [("x-model", JVal.str "Pet")] = true ∧
    is_model [("type", JVal.str "integer")] = false := by
  have h := c6_tag_models
    [("Pet", JVal.obj []), ("Num", JVal.obj [("type", JVal.str "integer")])]
    [("Pet", JVal.obj (tag_model_spec "Pet" [])),
     ("Num", JVal.obj (tag_model_spec "Num" [("type", JVal.str "integer")]))]
    rfl
  obtain ⟨-, hdef, -, -⟩ := h.1 "Pet" [] (by rfl)
  obtain ⟨-, -, -, huntouched⟩ :=
    h.1 "Num" [("type", JVal.str "integer")] (by rfl)
  have h1 := hdef (Or.inl rfl)
  have h3 := huntouched (JVal.str "integer") rfl
    (fun hh => JVal.noConfusion hh)
    (by intro hh; injection hh with hh2; exact absurd hh2 (by decide))
  refine ⟨h1.1, h1.2, h3, ?_, ?_⟩
  · exact (h.2 [("x-model", JVal.str "Pet")]).mpr rfl
  · cases him : is_model [("type", JVal.str "integer")] with
    | false => rfl
    | true =>
        have := (h.2 [("type", JVal.str "integer")]).mp him
        simp [List.lookup, MODEL_MARKER] at this

/-! ## Reference-normalization lemmas and claim C7 -/

theorem fix_descend_obj_lookup (names : List String) (fields : List (String × JVal))
    (k : String) :
    (fix_descend_obj names fields).lookup k =
      (fields.lookup k).map (fun v =>
        if k = "$ref" ∧ refMatch names v = true then fix_canonical v
        else fix_descend names v) := by
  induction fields with
  | nil => simp [fix_descend_obj]
  | cons kv rest ih =>
      obtain ⟨k1, v1⟩ := kv
      by_cases hk : k = k1
      · subst hk
        simp only [fix_descend_obj, lookup_cons_self, Option.map_some']
      · simp only [fix_descend_obj]
        rw [lookup_cons_ne _ _ _ _ hk, lookup_cons_ne _ _ _ _ hk]
        exact ih

theorem fix_descend_obj_keys (names : List String) (fields : List (String × JVal)) :
    (fix_descend_obj names fields).map Prod.fst = fields.map Prod.fst := by
  induction fields with
  | nil => rfl
  | cons kv rest ih =>
      obtain ⟨k1, v1⟩ := kv
      simp only [fix_descend_obj, List.map_cons, ih]

theorem fix_descend_arr_eq_map (names : List String) (xs : List JVal) :
    fix_descend_arr names xs = xs.map (fix_descend names) := by
  induction xs with
  | nil => rfl
  | cons x rest ih => simp only [fix_descend_arr, List.map_cons, ih]

theorem getPath_fix_descend (names : List String) :
    ∀ (p : List PathEl) (doc : JVal),
    getPath (fix_descend names doc) p =
      (getPath doc p).map (fun v =>
        if p.getLast? = some (PathEl.key "$ref") ∧ refMatch names v = true
        then fix_canonical v else fix_descend names v) := by
  intro p
  induction p with
  | nil =>
      intro doc
      simp [getPath]
  | cons e p' ih =>
      intro doc
      cases doc with
      | null => cases e <;> simp [fix_descend, getPath]
      | str s => cases e <;> simp [fix_descend, getPath]
      | num x => cases e <;> simp [fix_descend, getPath]
      | boolean b => cases e <;> simp [fix_descend, getPath]
      | obj fields =>
          cases e with
          | idx i => simp [fix_descend, getPath]
          | key k =>
              simp only [fix_descend, getPath, fix_descend_obj_lookup]
              cases hv : fields.lookup k with
              | none => simp
              | some v =>
                  simp only [Option.map_some']
                  by_cases hc : k = "$ref" ∧ refMatch names v = true
                  · rw [if_pos hc]
                    obtain ⟨hk, hm⟩ := hc
                    cases v with
                    | str s =>
                        subst hk
                        cases p' with
                        | nil =>
                            simp [getPath, fix_canonical, hm]
                        | cons e'' p''' =>
                            simp [getPath, fix_canonical]
                    | null => simp [refMatch] at hm
                    | num x => simp [refMatch] at hm
                    | boolean b => simp [refMatch] at hm
                    | arr xs => simp [refMatch] at hm
                    | obj f => simp [refMatch] at hm
                  · rw [if_neg hc]
                    rw [ih v]
                    cases p' with
                    | nil =>
                        simp only [getPath, Option.map_some']
                        rw [show ([PathEl.key k] : List PathEl).getLast?
                          = some (PathEl.key k) from rfl]
                        have hnc : ¬ (some (PathEl.key k) = some (PathEl.key "$ref") ∧
                            refMatch names v = true) := by
                          intro hpair
                          exact hc ⟨by cases hpair.1; rfl, hpair.2⟩
                        rw [if_neg hnc, if_neg (by simp)]
                    | cons e'' p''' =>
                        have hlast : (PathEl.key k :: e'' :: p''').getLast?
                            = (e'' :: p''').getLast? := List.getLast?_cons_cons
                        rw [hlast]
      | arr xs =>
          cases e with
          | key k => simp [fix_descend, getPath]
          | idx i =>
              simp only [fix_descend, getPath, fix_descend_arr_eq_map,
                List.get?_map]
              cases hx : xs.get? i with
              | none => simp
              | some v =>
                  simp only [Option.map_some']
                  rw [ih v]
                  cases p' with
                  | nil =>
                      simp only [getPath, Option.map_some']
                      rw [show ([PathEl.idx i] : List PathEl).getLast?
                        = some (PathEl.idx i) from rfl]
                      rw [if_neg (by simp), if_neg (by simp)]
                  | cons e'' p''' =>
                      have hlast : (PathEl.idx i :: e'' :: p''').getLast?
                          = (e'' :: p''').getLast? := List.getLast?_cons_cons
                      rw [hlast]

/-- C7: for every schema document and set of declared model names, the
`descend` walk of `fix_malformed_model_refs` rewrites, at every nesting
depth reachable through literal mappings and sequences, exactly the
`$ref`-keyed entries whose value is a bare declared model name into
`#/definitions/<name>`, and leaves everything else unchanged (non-matching
`$ref` values and all other leaves verbatim, object keys and array lengths
preserved). -/
theorem c7_ref_normalization (names : List String) (doc : JVal) (p : List PathEl) :
    (∀ n, getPath doc p = some (JVal.str n) →
        p.getLast? = some (PathEl.key "$ref") → names.contains n = true →
        getPath (fix_descend names doc) p
          = some (JVal.str ("#/definitions/" ++ n))) ∧
    (∀ n, getPath doc p = some (JVal.str n) →
        (p.getLast? = some (PathEl.key "$ref") → names.contains n = false) →
        getPath (fix_descend names doc) p = some (JVal.str n)) ∧
    (getPath doc p = some JVal.null →
        getPath (fix_descend names doc) p = some JVal.null) ∧
    (∀ x, getPath doc p = some (JVal.num x) →
        getPath (fix_descend names doc) p = some (JVal.num x)) ∧
    (∀ b, getPath doc p = some (JVal.boolean b) →
        getPath (fix_descend names doc) p = some (JVal.boolean b)) ∧
    (∀ fields, getPath doc p = some (JVal.obj fields) →
        ∃ fields2, getPath (fix_descend names doc) p = some (JVal.obj fields2) ∧
          fields2.map Prod.fst = fields.map Prod.fst) ∧
    (∀ xs, getPath doc p = some (JVal.arr xs) →
        ∃ ys, getPath (fix_descend names doc) p = some (JVal.arr ys) ∧
          ys.length = xs.length) ∧
    (getPath doc p = Option.none → getPath (fix_descend names doc) p = Option.none) := by
  have hmaster := getPath_fix_descend names p doc
  refine ⟨?_, ?_, ?_, ?_, ?_, ?_, ?_, ?_⟩
  · intro n hget hlast hmem
    rw [hmaster, hget, Option.map_some']
    rw [if_pos ⟨hlast, by
      rw [show refMatch names (JVal.str n) = names.contains n from rfl]
      exact hmem⟩]
    rfl
  · intro n hget hcond
    rw [hmaster, hget, Option.map_some']
    rw [if_neg ?hng]
    · rfl
    case hng =>
      intro hpair
      have := hcond hpair.1
      rw [show refMatch names (JVal.str n) = names.contains n from rfl, this]
        at hpair
      exact Bool.noConfusion hpair.2
  · intro hget
    rw [hmaster, hget, Option.map_some', if_neg (by simp [refMatch])]
    rfl
  · intro x hget
    rw [hmaster, hget, Option.map_some', if_neg (by simp [refMatch])]
    rfl
  · intro b hget
    rw [hmaster, hget, Option.map_some', if_neg (by simp [refMatch])]
    rfl
  · intro fields hget
    rw [hmaster, hget, Option.map_some', if_neg (by simp [refMatch])]
    exact ⟨fix_descend_obj names fields, rfl, fix_descend_obj_keys names fields⟩
  · intro xs hget
    rw [hmaster, hget, Option.map_some', if_neg (by simp [refMatch])]
    refine ⟨fix_descend_arr names xs, rfl, ?_⟩
    rw [fix_descend_arr_eq_map]
    exact List.length_map xs _
  · intro hget
    rw [hmaster, hget]
    rfl

/-- C7 (witness): on a concrete document, `{$ref: Category}` (declared) is
rewritten to the canonical pointer while `{$ref: Unknown}` is untouched. -/
theorem c7_witness :
    getPath
        (fix_malformed_model_refs (JVal.obj
          [("definitions", JVal.obj
            [("Category", JVal.obj [("properties", JVal.obj [])])]),
           ("paths", JVal.obj
            [("a", JVal.obj [("$ref", JVal.str "Category")]),
             ("b", JVal.obj [("$ref", JVal.str "Unknown")])])]))
        [PathEl.key "paths", PathEl.key "a", PathEl.key "$ref"]
      = some (JVal.str "#/definitions/Category") ∧
    getPath
        (fix_malformed_model_refs (JVal.obj
          [("definitions", JVal.obj
            [("Category", JVal.obj [("properties", JVal.obj [])])]),
           ("paths", JVal.obj
            [("a", JVal.obj [("$ref", JVal.str "Category")]),
             ("b", JVal.obj [("$ref", JVal.str "Unknown")])])]))
        [PathEl.key "paths", PathEl.key "b", PathEl.key "$ref"]
      = some (JVal.str "Unknown") := by
  constructor
  · exact (c7_ref_normalization ["Category"]
      (JVal.obj
        [("definitions", JVal.obj
          [("Category", JVal.obj [("properties", JVal.obj [])])]),
         ("paths", JVal.obj
          [("a", JVal.obj [("$ref", JVal.str "Category")]),
           ("b", JVal.obj [("$ref", JVal.str "Unknown")])])])
      [PathEl.key "paths", PathEl.key "a", PathEl.key "$ref"]).1
      "Category" rfl rfl rfl
  · exact (c7_ref_normalization ["Category"]
      (JVal.obj
        [("definitions", JVal.obj
          [("Category", JVal.obj [("properties", JVal.obj [])])]),
         ("paths", JVal.obj
          [("a", JVal.obj [("$ref", JVal.str "Category")]),
           ("b", JVal.obj [("$ref", JVal.str "Unknown")])])])
      [PathEl.key "paths", PathEl.key "b", PathEl.key "$ref"]).2.1
      "Unknown" rfl (fun _ => rfl)

/-! ## Construction lemmas and claims C3, C8 -/

theorem erase_eq_filter_beq (l : List String) (p : String) (h : l.Nodup) :
    l.erase p = l.filter (fun a => !(a == p)) := by
  induction l with
  | nil => rfl
  | cons a l' ih =>
      rw [List.nodup_cons] at h
      by_cases hap : a = p
      · subst hap
        rw [List.erase_cons_head]
        have : l'.filter (fun b => !(b == a)) = l' := by
          apply List.filter_eq_self.mpr
          intro b hb
          simp only [Bool.not_eq_true']
          exact beq_false_of_ne (fun hba => h.1 (hba ▸ hb))
        simp [this]
      · rw [List.erase_cons_tail (fun hh => hap (eq_of_beq hh))]
        simp only [List.filter_cons, beq_false_of_ne hap]
        simp only [Bool.not_false, if_true]
        rw [ih h.2]

theorem set_props_loop_leftover {τ π : Type} (swagger_to_py_type : τ → π)
    (get_instance : π → PyVal) (kwargs : List (String × PyVal))
    (types : List (String × τ)) :
    ∀ argKeys : List String, argKeys.Nodup →
    (set_props_loop swagger_to_py_type get_instance kwargs types argKeys).2
      = argKeys.filter (fun a => !((types.map Prod.fst).contains a)) := by
  induction types with
  | nil =>
      intro argKeys _
      simp [set_props_loop]
  | cons pt rest ih =>
      obtain ⟨p, t⟩ := pt
      intro argKeys hnd
      by_cases hp : p ∈ argKeys
      · rw [show set_props_loop swagger_to_py_type get_instance kwargs
            ((p, t) :: rest) argKeys
          = ((p, (kwargs.lookup p).getD PyVal.none) ::
              (set_props_loop swagger_to_py_type get_instance kwargs rest
                (argKeys.erase p)).1,
             (set_props_loop swagger_to_py_type get_instance kwargs rest
                (argKeys.erase p)).2) from by
          simp [set_props_loop, hp]]
        rw [ih (argKeys.erase p) (hnd.erase p)]
        rw [erase_eq_filter_beq argKeys p hnd, List.filter_filter]
        apply List.filter_congr
        intro a _
        simp only [List.map_cons, List.contains_cons]
        cases hbeq : a == p <;> simp
      · rw [show set_props_loop swagger_to_py_type get_instance kwargs
            ((p, t) :: rest) argKeys
          = ((p, get_instance (swagger_to_py_type t)) ::
              (set_props_loop swagger_to_py_type get_instance kwargs rest argKeys).1,
             (set_props_loop swagger_to_py_type get_instance kwargs rest argKeys).2)
            from by
          simp [set_props_loop, hp]]
        rw [ih argKeys hnd]
        apply List.filter_congr
        intro a ha
        have hap : a ≠ p := fun h => hp (h ▸ ha)
        simp only [List.map_cons, List.contains_cons, beq_false_of_ne hap]
        simp

theorem set_props_loop_attrs {τ π : Type} (swagger_to_py_type : τ → π)
    (get_instance : π → PyVal) (kwargs : List (String × PyVal))
    (types : List (String × τ)) :
    ∀ argKeys : List String, (types.map Prod.fst).Nodup →
    ((set_props_loop swagger_to_py_type get_instance kwargs types argKeys).1.map
        Prod.fst = types.map Prod.fst) ∧
    (∀ p t, types.lookup p = some t →
      (set_props_loop swagger_to_py_type get_instance kwargs types argKeys).1.lookup p
        = some (if p ∈ argKeys then (kwargs.lookup p).getD PyVal.none
            else get_instance (swagger_to_py_type t))) := by
  induction types with
  | nil =>
      intro argKeys _
      refine ⟨by simp [set_props_loop], ?_⟩
      intro p t h
      simp [List.lookup] at h
  | cons pt rest ih =>
      obtain ⟨p0, t0⟩ := pt
      intro argKeys hnd
      rw [List.map_cons, List.nodup_cons] at hnd
      obtain ⟨hout, hnd'⟩ := hnd
      by_cases hp0 : p0 ∈ argKeys
      · rw [show set_props_loop swagger_to_py_type get_instance kwargs
            ((p0, t0) :: rest) argKeys
          = ((p0, (kwargs.lookup p0).getD PyVal.none) ::
              (set_props_loop swagger_to_py_type get_instance kwargs rest
                (argKeys.erase p0)).1,
             (set_props_loop swagger_to_py_type get_instance kwargs rest
                (argKeys.erase p0)).2) from by
          simp [set_props_loop, hp0]]
        obtain ⟨ihmap, ihlk⟩ := ih (argKeys.erase p0) hnd'
        refine ⟨by simp [ihmap], ?_⟩
        intro p t hlk
        by_cases hpp : p = p0
        · subst hpp
          rw [lookup_cons_self] at hlk
          have ht : t = t0 := by cases hlk; rfl
          subst ht
          rw [lookup_cons_self, if_pos hp0]
        · rw [lookup_cons_ne _ _ _ _ hpp] at hlk
          rw [lookup_cons_ne _ _ _ _ hpp, ihlk p t hlk]
          exact congrArg some (if_congr (List.mem_erase_of_ne hpp) rfl rfl)
      · rw [show set_props_loop swagger_to_py_type get_instance kwargs
            ((p0, t0) :: rest) argKeys
          = ((p0, get_instance (swagger_to_py_type t0)) ::
              (set_props_loop swagger_to_py_type get_instance kwargs rest argKeys).1,
             (set_props_loop swagger_to_py_type get_instance kwargs rest argKeys).2)
            from by
          simp [set_props_loop, hp0]]
        obtain ⟨ihmap, ihlk⟩ := ih argKeys hnd'
        refine ⟨by simp [ihmap], ?_⟩
        intro p t hlk
        by_cases hpp : p = p0
        · subst hpp
          rw [lookup_cons_self] at hlk
          have ht : t = t0 := by cases hlk; rfl
          subst ht
          rw [lookup_cons_self, if_neg hp0]
        · rw [lookup_cons_ne _ _ _ _ hpp] at hlk
          rw [lookup_cons_ne _ _ _ _ hpp, ihlk p t hlk]

theorem set_props_eq {τ π : Type} (cls : String) (swagger_to_py_type : τ → π)
    (get_instance : π → PyVal) (types : List (String × τ))
    (kwargs : List (String × PyVal)) :
    set_props cls swagger_to_py_type get_instance types kwargs
      = (if (set_props_loop swagger_to_py_type get_instance kwargs types
            (kwargs.map Prod.fst)).2 = []
         then Except.ok (set_props_loop swagger_to_py_type get_instance kwargs types
            (kwargs.map Prod.fst)).1
         else Except.error ((set_props_loop swagger_to_py_type get_instance kwargs
            types (kwargs.map Prod.fst)).2, cls)) := rfl

theorem set_props_ok_of_known {τ π : Type} (cls : String)
    (swagger_to_py_type : τ → π) (get_instance : π → PyVal)
    (types : List (String × τ)) (kwargs : List (String × PyVal))
    (hk : (kwargs.map Prod.fst).Nodup)
    (hall : ∀ a ∈ kwargs.map Prod.fst, a ∈ types.map Prod.fst) :
    ∃ attrs, set_props cls swagger_to_py_type get_instance types kwargs
      = Except.ok attrs := by
  have hleft := set_props_loop_leftover swagger_to_py_type get_instance kwargs types
    (kwargs.map Prod.fst) hk
  have hnil : (kwargs.map Prod.fst).filter
      (fun a => !((types.map Prod.fst).contains a)) = [] := by
    rw [List.filter_eq_nil]
    intro a ha
    simp only [Bool.not_eq_true', Bool.not_eq_false]
    exact List.elem_iff.mpr (hall a ha)
  refine ⟨(set_props_loop swagger_to_py_type get_instance kwargs types
    (kwargs.map Prod.fst)).1, ?_⟩
  rw [set_props_eq, hleft, if_pos hnil]

/-- C3: construction fails with the unknown-property error exactly when some
supplied argument name is not a declared property; the error names exactly
the unrecognized keys (all of them, in kwargs order, and only them)
together with the target model, however many valid arguments were supplied;
with only declared names it succeeds. -/
theorem c3_unknown_property {τ π : Type} (cls : String) (swagger_to_py_type : τ → π)
    (get_instance : π → PyVal) (types : List (String × τ))
    (kwargs : List (String × PyVal)) (hk : (kwargs.map Prod.fst).Nodup) :
    ((∃ a ∈ kwargs.map Prod.fst, a ∉ types.map Prod.fst) →
      set_props cls swagger_to_py_type get_instance types kwargs
        = Except.error
            ((kwargs.map Prod.fst).filter
              (fun a => !((types.map Prod.fst).contains a)), cls)) ∧
    ((∀ a ∈ kwargs.map Prod.fst, a ∈ types.map Prod.fst) →
      ∃ attrs, set_props cls swagger_to_py_type get_instance types kwargs
        = Except.ok attrs) := by
  have hleft := set_props_loop_leftover swagger_to_py_type get_instance kwargs types
    (kwargs.map Prod.fst) hk
  constructor
  · intro hex
    obtain ⟨a, ha, hnot⟩ := hex
    have hmem : a ∈ (kwargs.map Prod.fst).filter
        (fun a => !((types.map Prod.fst).contains a)) := by
      apply List.mem_filter.mpr
      refine ⟨ha, ?_⟩
      simp only [Bool.not_eq_true']
      cases hco : (types.map Prod.fst).contains a with
      | false => rfl
      | true => exact absurd (List.elem_iff.mp hco) hnot
    have hne : (kwargs.map Prod.fst).filter
        (fun a => !((types.map Prod.fst).contains a)) ≠ [] :=
      List.ne_nil_of_mem hmem
    rw [set_props_eq, hleft, if_neg hne]
  · intro hall
    exact set_props_ok_of_known cls swagger_to_py_type get_instance types kwargs
      hk hall

/-- C3 (witness): supplying two unknown names (`bogus`, `extra`) along with
a valid one fails naming exactly those keys and the model. -/
theorem c3_witness :
    set_props "Pet" (fun t : String => t) (fun _ => PyVal.none)
        [("id", "integer"), ("name", "string")]
        [("name", PyVal.prim "Rex"), ("bogus", PyVal.int 1), ("extra", PyVal.int 2)]
      = Except.error (["bogus", "extra"], "Pet") :=
  (c3_unknown_property "Pet" (fun t : String => t) (fun _ => PyVal.none)
    [("id", "integer"), ("name", "string")]
    [("name", PyVal.prim "Rex"), ("bogus", PyVal.int 1), ("extra", PyVal.int 2)]
    (by decide)).1
    ⟨"bogus", by decide, by decide⟩

/-- C8: with only recognized argument names, construction yields exactly one
attribute per declared property, in declaration order: supplied values are
taken verbatim, all remaining properties get the Primitive Type Mapper
default for their resolved host type. -/
theorem c8_defaults {τ π : Type} (cls : String) (swagger_to_py_type : τ → π)
    (get_instance : π → PyVal) (types : List (String × τ))
    (kwargs : List (String × PyVal)) (hk : (kwargs.map Prod.fst).Nodup)
    (ht : (types.map Prod.fst).Nodup)
    (hall : ∀ a ∈ kwargs.map Prod.fst, a ∈ types.map Prod.fst) :
    (∃ attrs, set_props cls swagger_to_py_type get_instance types kwargs
        = Except.ok attrs) ∧
    (∀ attrs, set_props cls swagger_to_py_type get_instance types kwargs
        = Except.ok attrs →
      attrs.map Prod.fst = types.map Prod.fst ∧
      (∀ p v, kwargs.lookup p = some v → attrs.lookup p = some v) ∧
      (∀ p t, types.lookup p = some t → kwargs.lookup p = Option.none →
        attrs.lookup p = some (get_instance (swagger_to_py_type t)))) := by
  have hok := set_props_ok_of_known cls swagger_to_py_type get_instance types
    kwargs hk hall
  refine ⟨hok, ?_⟩
  intro attrs heq
  obtain ⟨attrs0, heq0⟩ := hok
  have hattrs : attrs = (set_props_loop swagger_to_py_type get_instance kwargs types
      (kwargs.map Prod.fst)).1 := by
    rw [set_props_eq] at heq
    by_cases hnil : (set_props_loop swagger_to_py_type get_instance kwargs types
        (kwargs.map Prod.fst)).2 = []
    · rw [if_pos hnil] at heq
      cases heq
      rfl
    · rw [if_neg hnil] at heq
      exact absurd heq (by simp)
  subst hattrs
  obtain ⟨hmap, hlk⟩ := set_props_loop_attrs swagger_to_py_type get_instance kwargs
    types (kwargs.map Prod.fst) ht
  refine ⟨hmap, ?_, ?_⟩
  · intro p v hpv
    have hpk : p ∈ kwargs.map Prod.fst :=
      (lookup_isSome_iff kwargs p).mp (by rw [hpv]; rfl)
    have hpt : p ∈ types.map Prod.fst := hall p hpk
    obtain ⟨t, hth⟩ : ∃ t, types.lookup p = some t := by
      cases hco : types.lookup p with
      | none =>
          exact absurd ((lookup_isSome_iff types p).mpr hpt) (by rw [hco]; simp)
      | some t => exact ⟨t, rfl⟩
    rw [hlk p t hth, if_pos hpk, hpv]
    rfl
  · intro p t hth hnone
    have hpk : p ∉ kwargs.map Prod.fst := by
      intro hmem
      have := (lookup_isSome_iff kwargs p).mpr hmem
      rw [hnone] at this
      exact Bool.noConfusion this
    rw [hlk p t hth, if_neg hpk]

/-- C8 (witness): `Pet(name="Rex")` over properties `id`, `name`: `name` is
taken verbatim and `id` gets the mapper default of its resolved type. -/
theorem c8_witness :
    set_props "Pet" (fun t : String => t ++ "-py")
        (fun h => PyVal.prim ("default:" ++ h))
        [("id", "integer"), ("name", "string")]
        [("name", PyVal.prim "Rex")]
      = Except.ok [("id", PyVal.prim "default:integer-py"),
          ("name", PyVal.prim "Rex")] ∧
    ([("id", PyVal.prim "default:integer-py"),
      ("name", PyVal.prim "Rex")] : List (String × PyVal)).lookup "name"
      = some (PyVal.prim "Rex") ∧
    ([("id", PyVal.prim "default:integer-py"),
      ("name", PyVal.prim "Rex")] : List (String × PyVal)).lookup "id"
      = some (PyVal.prim "default:integer-py") := by
  have h := (c8_defaults "Pet" (fun t : String => t ++ "-py")
    (fun h => PyVal.prim ("default:" ++ h))
    [("id", "integer"), ("name", "string")]
    [("name", PyVal.prim "Rex")]
    (by decide) (by decide)
    (by intro a ha
        rcases List.mem_cons.mp ha with h | h
        · rw [h]; right; exact List.mem_cons_self _ _
        · simp at h)).2
    [("id", PyVal.prim "default:integer-py"), ("name", PyVal.prim "Rex")]
    rfl
  exact ⟨rfl, h.2.1 "name" (PyVal.prim "Rex") rfl,
    h.2.2 "id" "integer" rfl rfl⟩

/-! ## Flattening lemmas and claims C1, C9 -/

mutual

theorem create_flat_dict_error : ∀ (v : PyVal) (e : String),
    create_flat_dict v = Except.error e →
    ∃ p, e = "Required field " ++ p ++ " can not be None" ∧ offending v p
  | PyVal.inst cls req fields, e => by
      intro h
      simp only [create_flat_dict] at h
      cases hf : flat_fields req fields with
      | ok d => rw [hf] at h; simp at h
      | error e2 =>
          rw [hf] at h
          simp at h
          subst h
          obtain ⟨p, hp, hoff⟩ := flat_fields_error req fields e2 hf
          refine ⟨p, hp, ?_⟩
          rcases hoff with ⟨hmem, hreq⟩ | ⟨kv, hkv, hofv⟩
          · exact offending.here cls req fields p hmem hreq
          · exact offending.field cls req fields kv.1 kv.2 p hkv hofv
  | PyVal.none, e => by intro h; simp [create_flat_dict] at h
  | PyVal.prim s, e => by intro h; simp [create_flat_dict] at h
  | PyVal.int n, e => by intro h; simp [create_flat_dict] at h
  | PyVal.pylist xs, e => by intro h; simp [create_flat_dict] at h
  | PyVal.pydict d, e => by intro h; simp [create_flat_dict] at h
termination_by v e => sizeOf v

theorem flat_fields_error : ∀ (req : Option (List String))
    (l : List (String × PyVal)) (e : String),
    flat_fields req l = Except.error e →
    ∃ p, e = "Required field " ++ p ++ " can not be None" ∧
      (((p, PyVal.none) ∈ l ∧ (req.getD []).contains p = true) ∨
        ∃ kv ∈ l, offending kv.2 p)
  | req, [], e => by intro h; simp [flat_fields] at h
  | req, (k, PyVal.pylist xs) :: rest, e => by
      intro h
      simp only [flat_fields] at h
      cases hfl : flat_list xs with
      | error e2 =>
          rw [hfl] at h
          simp at h
          subst h
          obtain ⟨p, hp, x, hx, hofx⟩ := flat_list_error xs e2 hfl
          exact ⟨p, hp, Or.inr ⟨(k, PyVal.pylist xs), List.mem_cons_self _ _,
            offending.elem xs x p hx hofx⟩⟩
      | ok ys =>
          rw [hfl] at h
          cases hre : flat_fields req rest with
          | error e2 =>
              rw [hre] at h
              simp at h
              subst h
              obtain ⟨p, hp, hoff⟩ := flat_fields_error req rest e2 hre
              refine ⟨p, hp, ?_⟩
              rcases hoff with ⟨hmem, hreq⟩ | ⟨kv, hkv, hofv⟩
              · exact Or.inl ⟨List.mem_cons_of_mem _ hmem, hreq⟩
              · exact Or.inr ⟨kv, List.mem_cons_of_mem _ hkv, hofv⟩
          | ok d => rw [hre] at h; simp at h
  | req, (k, PyVal.none) :: rest, e => by
      intro h
      simp only [flat_fields] at h
      by_cases hc : (req.getD []).contains k = true
      · rw [if_pos hc] at h
        refine ⟨k, ?_, Or.inl ⟨List.mem_cons_self _ _, hc⟩⟩
        cases h
        rfl
      · rw [if_neg hc] at h
        obtain ⟨p, hp, hoff⟩ := flat_fields_error req rest e h
        refine ⟨p, hp, ?_⟩
        rcases hoff with ⟨hmem, hreq⟩ | ⟨kv, hkv, hofv⟩
        · exact Or.inl ⟨List.mem_cons_of_mem _ hmem, hreq⟩
        · exact Or.inr ⟨kv, List.mem_cons_of_mem _ hkv, hofv⟩
  | req, (k, PyVal.prim s) :: rest, e => by
      intro h
      simp only [flat_fields] at h
      cases hcf : create_flat_dict (PyVal.prim s) with
      | error e2 =>
          rw [hcf] at h
          simp at h
          subst h
          obtain ⟨p, hp, hofv⟩ := create_flat_dict_error (PyVal.prim s) e2 hcf
          exact ⟨p, hp, Or.inr ⟨(k, PyVal.prim s), List.mem_cons_self _ _, hofv⟩⟩
      | ok w =>
          rw [hcf] at h
          cases hre : flat_fields req rest with
          | error e2 =>
              rw [hre] at h
              simp at h
              subst h
              obtain ⟨p, hp, hoff⟩ := flat_fields_error req rest e2 hre
              refine ⟨p, hp, ?_⟩
              rcases hoff with ⟨hmem, hreq⟩ | ⟨kv, hkv, hofv⟩
              · exact Or.inl ⟨List.mem_cons_of_mem _ hmem, hreq⟩
              · exact Or.inr ⟨kv, List.mem_cons_of_mem _ hkv, hofv⟩
          | ok d => rw [hre] at h; simp at h
  | req, (k, PyVal.int n) :: rest, e => by
      intro h
      simp only [flat_fields] at h
      cases hcf : create_flat_dict (PyVal.int n) with
      | error e2 =>
          rw [hcf] at h
          simp at h
          subst h
          obtain ⟨p, hp, hofv⟩ := create_flat_dict_error (PyVal.int n) e2 hcf
          exact ⟨p, hp, Or.inr ⟨(k, PyVal.int n), List.mem_cons_self _ _, hofv⟩⟩
      | ok w =>
          rw [hcf] at h
          cases hre : flat_fields req rest with
          | error e2 =>
              rw [hre] at h
              simp at h
              subst h
              obtain ⟨p, hp, hoff⟩ := flat_fields_error req rest e2 hre
              refine ⟨p, hp, ?_⟩
              rcases hoff with ⟨hmem, hreq⟩ | ⟨kv, hkv, hofv⟩
              · exact Or.inl ⟨List.mem_cons_of_mem _ hmem, hreq⟩
              · exact Or.inr ⟨kv, List.mem_cons_of_mem _ hkv, hofv⟩
          | ok d => rw [hre] at h; simp at h
  | req, (k, PyVal.pydict d0) :: rest, e => by
      intro h
      simp only [flat_fields] at h
      cases hcf : create_flat_dict (PyVal.pydict d0) with
      | error e2 =>
          rw [hcf] at h
          simp at h
          subst h
          obtain ⟨p, hp, hofv⟩ := create_flat_dict_error (PyVal.pydict d0) e2 hcf
          exact ⟨p, hp, Or.inr ⟨(k, PyVal.pydict d0), List.mem_cons_self _ _, hofv⟩⟩
      | ok w =>
          rw [hcf] at h
          cases hre : flat_fields req rest with
          | error e2 =>
              rw [hre] at h
              simp at h
              subst h
              obtain ⟨p, hp, hoff⟩ := flat_fields_error req rest e2 hre
              refine ⟨p, hp, ?_⟩
              rcases hoff with ⟨hmem, hreq⟩ | ⟨kv, hkv, hofv⟩
              · exact Or.inl ⟨List.mem_cons_of_mem _ hmem, hreq⟩
              · exact Or.inr ⟨kv, List.mem_cons_of_mem _ hkv, hofv⟩
          | ok d => rw [hre] at h; simp at h
  | req, (k, PyVal.inst c r f) :: rest, e => by
      intro h
      simp only [flat_fields] at h
      cases hcf : create_flat_dict (PyVal.inst c r f) with
      | error e2 =>
          rw [hcf] at h
          simp at h
          subst h
          obtain ⟨p, hp, hofv⟩ := create_flat_dict_error (PyVal.inst c r f) e2 hcf
          exact ⟨p, hp, Or.inr ⟨(k, PyVal.inst c r f), List.mem_cons_self _ _, hofv⟩⟩
      | ok w =>
          rw [hcf] at h
          cases hre : flat_fields req rest with
          | error e2 =>
              rw [hre] at h
              simp at h
              subst h
              obtain ⟨p, hp, hoff⟩ := flat_fields_error req rest e2 hre
              refine ⟨p, hp, ?_⟩
              rcases hoff with ⟨hmem, hreq⟩ | ⟨kv, hkv, hofv⟩
              · exact Or.inl ⟨List.mem_cons_of_mem _ hmem, hreq⟩
              · exact Or.inr ⟨kv, List.mem_cons_of_mem _ hkv, hofv⟩
          | ok d => rw [hre] at h; simp at h
termination_by req l e => sizeOf l

theorem flat_list_error : ∀ (l : List PyVal) (e : String),
    flat_list l = Except.error e →
    ∃ p, e = "Required field " ++ p ++ " can not be None" ∧
      ∃ x ∈ l, offending x p
  | [], e => by intro h; simp [flat_list] at h
  | PyVal.none :: xs, e => by
      intro h
      simp only [flat_list] at h
      obtain ⟨p, hp, x, hx, hofx⟩ := flat_list_error xs e h
      exact ⟨p, hp, x, List.mem_cons_of_mem _ hx, hofx⟩
  | PyVal.prim s :: xs, e => by
      intro h
      simp only [flat_list] at h
      cases hcf : create_flat_dict (PyVal.prim s) with
      | error e2 =>
          rw [hcf] at h; simp at h; subst h
          obtain ⟨p, hp, hofv⟩ := create_flat_dict_error (PyVal.prim s) e2 hcf
          exact ⟨p, hp, PyVal.prim s, List.mem_cons_self _ _, hofv⟩
      | ok w =>
          rw [hcf] at h
          cases hre : flat_list xs with
          | error e2 =>
              rw [hre] at h; simp at h; subst h
              obtain ⟨p, hp, x, hx, hofx⟩ := flat_list_error xs e2 hre
              exact ⟨p, hp, x, List.mem_cons_of_mem _ hx, hofx⟩
          | ok ys => rw [hre] at h; simp at h
  | PyVal.int n :: xs, e => by
      intro h
      simp only [flat_list] at h
      cases hcf : create_flat_dict (PyVal.int n) with
      | error e2 =>
          rw [hcf] at h; simp at h; subst h
          obtain ⟨p, hp, hofv⟩ := create_flat_dict_error (PyVal.int n) e2 hcf
          exact ⟨p, hp, PyVal.int n, List.mem_cons_self _ _, hofv⟩
      | ok w =>
          rw [hcf] at h
          cases hre : flat_list xs with
          | error e2 =>
              rw [hre] at h; simp at h; subst h
              obtain ⟨p, hp, x, hx, hofx⟩ := flat_list_error xs e2 hre
              exact ⟨p, hp, x, List.mem_cons_of_mem _ hx, hofx⟩
          | ok ys => rw [hre] at h; simp at h
  | PyVal.pylist zs :: xs, e => by
      intro h
      simp only [flat_list] at h
      cases hcf : create_flat_dict (PyVal.pylist zs) with
      | error e2 =>
          rw [hcf] at h; simp at h; subst h
          obtain ⟨p, hp, hofv⟩ := create_flat_dict_error (PyVal.pylist zs) e2 hcf
          exact ⟨p, hp, PyVal.pylist zs, List.mem_cons_self _ _, hofv⟩
      | ok w =>
          rw [hcf] at h
          cases hre : flat_list xs with
          | error e2 =>
              rw [hre] at h; simp at h; subst h
              obtain ⟨p, hp, x, hx, hofx⟩ := flat_list_error xs e2 hre
              exact ⟨p, hp, x, List.mem_cons_of_mem _ hx, hofx⟩
          | ok ys => rw [hre] at h; simp at h
  | PyVal.pydict d0 :: xs, e => by
      intro h
      simp only [flat_list] at h
      cases hcf : create_flat_dict (PyVal.pydict d0) with
      | error e2 =>
          rw [hcf] at h; simp at h; subst h
          obtain ⟨p, hp, hofv⟩ := create_flat_dict_error (PyVal.pydict d0) e2 hcf
          exact ⟨p, hp, PyVal.pydict d0, List.mem_cons_self _ _, hofv⟩
      | ok w =>
          rw [hcf] at h
          cases hre : flat_list xs with
          | error e2 =>
              rw [hre] at h; simp at h; subst h
              obtain ⟨p, hp, x, hx, hofx⟩ := flat_list_error xs e2 hre
              exact ⟨p, hp, x, List.mem_cons_of_mem _ hx, hofx⟩
          | ok ys => rw [hre] at h; simp at h
  | PyVal.inst c r f :: xs, e => by
      intro h
      simp only [flat_list] at h
      cases hcf : create_flat_dict (PyVal.inst c r f) with
      | error e2 =>
          rw [hcf] at h; simp at h; subst h
          obtain ⟨p, hp, hofv⟩ := create_flat_dict_error (PyVal.inst c r f) e2 hcf
          exact ⟨p, hp, PyVal.inst c r f, List.mem_cons_self _ _, hofv⟩
      | ok w =>
          rw [hcf] at h
          cases hre : flat_list xs with
          | error e2 =>
              rw [hre] at h; simp at h; subst h
              obtain ⟨p, hp, x, hx, hofx⟩ := flat_list_error xs e2 hre
              exact ⟨p, hp, x, List.mem_cons_of_mem _ hx, hofx⟩
          | ok ys => rw [hre] at h; simp at h
termination_by l e => sizeOf l

end

theorem flat_fields_req_none (req : Option (List String)) (k : String) :
    ∀ (l : List (String × PyVal)), l.lookup k = some PyVal.none →
    (req.getD []).contains k = true →
    ∀ d, flat_fields req l ≠ Except.ok d := by
  intro l
  induction l with
  | nil => intro h; simp [List.lookup] at h
  | cons kv rest ih =>
      obtain ⟨k1, v1⟩ := kv
      intro hlk hc d h
      by_cases hk : k = k1
      · subst hk
        rw [lookup_cons_self] at hlk
        have hv : v1 = PyVal.none := by cases hlk; rfl
        subst hv
        simp only [flat_fields, hc, if_true] at h
        exact Except.noConfusion h
      · rw [lookup_cons_ne _ _ _ _ hk] at hlk
        cases v1 with
        | pylist xs =>
            simp only [flat_fields] at h
            cases hfl : flat_list xs with
            | error e => rw [hfl] at h; simp at h
            | ok ys =>
                rw [hfl] at h
                cases hre : flat_fields req rest with
                | error e => rw [hre] at h; simp at h
                | ok d2 => exact ih hlk hc d2 hre
        | none =>
            simp only [flat_fields] at h
            by_cases hc1 : (req.getD []).contains k1 = true
            · rw [if_pos hc1] at h; simp at h
            · rw [if_neg hc1] at h
              exact ih hlk hc _ h
        | prim s =>
            simp only [flat_fields] at h
            cases hcf : create_flat_dict (PyVal.prim s) with
            | error e => rw [hcf] at h; simp at h
            | ok w =>
                rw [hcf] at h
                cases hre : flat_fields req rest with
                | error e => rw [hre] at h; simp at h
                | ok d2 => exact ih hlk hc d2 hre
        | int n =>
            simp only [flat_fields] at h
            cases hcf : create_flat_dict (PyVal.int n) with
            | error e => rw [hcf] at h; simp at h
            | ok w =>
                rw [hcf] at h
                cases hre : flat_fields req rest with
                | error e => rw [hre] at h; simp at h
                | ok d2 => exact ih hlk hc d2 hre
        | pydict d0 =>
            simp only [flat_fields] at h
            cases hcf : create_flat_dict (PyVal.pydict d0) with
            | error e => rw [hcf] at h; simp at h
            | ok w =>
                rw [hcf] at h
                cases hre : flat_fields req rest with
                | error e => rw [hre] at h; simp at h
                | ok d2 => exact ih hlk hc d2 hre
        | inst c r f =>
            simp only [flat_fields] at h
            cases hcf : create_flat_dict (PyVal.inst c r f) with
            | error e => rw [hcf] at h; simp at h
            | ok w =>
                rw [hcf] at h
                cases hre : flat_fields req rest with
                | error e => rw [hre] at h; simp at h
                | ok d2 => exact ih hlk hc d2 hre

theorem flat_fields_keys_sublist (req : Option (List String)) :
    ∀ (l : List (String × PyVal)) (d : List (String × PyVal)),
    flat_fields req l = Except.ok d →
    List.Sublist (d.map Prod.fst) (l.map Prod.fst) := by
  intro l
  induction l with
  | nil =>
      intro d h
      simp only [flat_fields] at h
      cases h
      simp
  | cons kv rest ih =>
      obtain ⟨k1, v1⟩ := kv
      intro d h
      cases v1 with
      | pylist xs =>
          simp only [flat_fields] at h
          cases hfl : flat_list xs with
          | error e => rw [hfl] at h; simp at h
          | ok ys =>
              rw [hfl] at h
              cases hre : flat_fields req rest with
              | error e => rw [hre] at h; simp at h
              | ok d2 =>
                  rw [hre] at h
                  simp at h
                  subst h
                  exact List.Sublist.cons₂ k1 (ih d2 hre)
      | none =>
          simp only [flat_fields] at h
          by_cases hc1 : (req.getD []).contains k1 = true
          · rw [if_pos hc1] at h; simp at h
          · rw [if_neg hc1] at h
            exact List.Sublist.cons k1 (ih d h)
      | prim s =>
          simp only [flat_fields] at h
          cases hcf : create_flat_dict (PyVal.prim s) with
          | error e => rw [hcf] at h; simp at h
          | ok w =>
              rw [hcf] at h
              cases hre : flat_fields req rest with
              | error e => rw [hre] at h; simp at h
              | ok d2 =>
                  rw [hre] at h
                  simp at h
                  subst h
                  exact List.Sublist.cons₂ k1 (ih d2 hre)
      | int n =>
          simp only [flat_fields] at h
          cases hcf : create_flat_dict (PyVal.int n) with
          | error e => rw [hcf] at h; simp at h
          | ok w =>
              rw [hcf] at h
              cases hre : flat_fields req rest with
              | error e => rw [hre] at h; simp at h
              | ok d2 =>
                  rw [hre] at h
                  simp at h
                  subst h
                  exact List.Sublist.cons₂ k1 (ih d2 hre)
      | pydict d0 =>
          simp only [flat_fields] at h
          cases hcf : create_flat_dict (PyVal.pydict d0) with
          | error e => rw [hcf] at h; simp at h
          | ok w =>
              rw [hcf] at h
              cases hre : flat_fields req rest with
              | error e => rw [hre] at h; simp at h
              | ok d2 =>
                  rw [hre] at h
                  simp at h
                  subst h
                  exact List.Sublist.cons₂ k1 (ih d2 hre)
      | inst c r f =>
          simp only [flat_fields] at h
          cases hcf : create_flat_dict (PyVal.inst c r f) with
          | error e => rw [hcf] at h; simp at h
          | ok w =>
              rw [hcf] at h
              cases hre : flat_fields req rest with
              | error e => rw [hre] at h; simp at h
              | ok d2 =>
                  rw [hre] at h
                  simp at h
                  subst h
                  exact List.Sublist.cons₂ k1 (ih d2 hre)

theorem flat_fields_null_dropped (req : Option (List String)) (k : String) :
    ∀ (l : List (String × PyVal)) (d : List (String × PyVal)),
    (l.map Prod.fst).Nodup →
    l.lookup k = some PyVal.none →
    (req.getD []).contains k = false →
    flat_fields req l = Except.ok d →
    k ∉ d.map Prod.fst := by
  intro l
  induction l with
  | nil => intro d _ hlk; simp [List.lookup] at hlk
  | cons kv rest ih =>
      obtain ⟨k1, v1⟩ := kv
      intro d hnd hlk hc h
      rw [List.map_cons, List.nodup_cons] at hnd
      obtain ⟨hout, hnd'⟩ := hnd
      by_cases hk : k = k1
      · subst hk
        rw [lookup_cons_self] at hlk
        have hv : v1 = PyVal.none := by cases hlk; rfl
        subst hv
        simp only [flat_fields, hc] at h
        rw [if_neg Bool.false_ne_true] at h
        intro hmem
        exact hout ((flat_fields_keys_sublist req rest d h).subset hmem)
      · rw [lookup_cons_ne _ _ _ _ hk] at hlk
        cases v1 with
        | pylist xs =>
            simp only [flat_fields] at h
            cases hfl : flat_list xs with
            | error e => rw [hfl] at h; simp at h
            | ok ys =>
                rw [hfl] at h
                cases hre : flat_fields req rest with
                | error e => rw [hre] at h; simp at h
                | ok d2 =>
                    rw [hre] at h
                    simp at h
                    subst h
                    simp only [List.map_cons, List.mem_cons]
                    rintro (hh | hh)
                    · exact hk hh
                    · exact ih d2 hnd' hlk hc hre hh
        | none =>
            simp only [flat_fields] at h
            by_cases hc1 : (req.getD []).contains k1 = true
            · rw [if_pos hc1] at h; simp at h
            · rw [if_neg hc1] at h
              exact ih d hnd' hlk hc h
        | prim s =>
            simp only [flat_fields] at h
            cases hcf : create_flat_dict (PyVal.prim s) with
            | error e => rw [hcf] at h; simp at h
            | ok w =>
                rw [hcf] at h
                cases hre : flat_fields req rest with
                | error e => rw [hre] at h; simp at h
                | ok d2 =>
                    rw [hre] at h
                    simp at h
                    subst h
                    simp only [List.map_cons, List.mem_cons]
                    rintro (hh | hh)
                    · exact hk hh
                    · exact ih d2 hnd' hlk hc hre hh
        | int n =>
            simp only [flat_fields] at h
            cases hcf : create_flat_dict (PyVal.int n) with
            | error e => rw [hcf] at h; simp at h
            | ok w =>
                rw [hcf] at h
                cases hre : flat_fields req rest with
                | error e => rw [hre] at h; simp at h
                | ok d2 =>
                    rw [hre] at h
                    simp at h
                    subst h
                    simp only [List.map_cons, List.mem_cons]
                    rintro (hh | hh)
                    · exact hk hh
                    · exact ih d2 hnd' hlk hc hre hh
        | pydict d0 =>
            simp only [flat_fields] at h
            cases hcf : create_flat_dict (PyVal.pydict d0) with
            | error e => rw [hcf] at h; simp at h
            | ok w =>
                rw [hcf] at h
                cases hre : flat_fields req rest with
                | error e => rw [hre] at h; simp at h
                | ok d2 =>
                    rw [hre] at h
                    simp at h
                    subst h
                    simp only [List.map_cons, List.mem_cons]
                    rintro (hh | hh)
                    · exact hk hh
                    · exact ih d2 hnd' hlk hc hre hh
        | inst c r f =>
            simp only [flat_fields] at h
            cases hcf : create_flat_dict (PyVal.inst c r f) with
            | error e => rw [hcf] at h; simp at h
            | ok w =>
                rw [hcf] at h
                cases hre : flat_fields req rest with
                | error e => rw [hre] at h; simp at h
                | ok d2 =>
                    rw [hre] at h
                    simp at h
                    subst h
                    simp only [List.map_cons, List.mem_cons]
                    rintro (hh | hh)
                    · exact hk hh
                    · exact ih d2 hnd' hlk hc hre hh

theorem flat_fields_ok_lookup_list (req : Option (List String)) (k : String)
    (xs : List PyVal) :
    ∀ (l : List (String × PyVal)) (d : List (String × PyVal)),
    flat_fields req l = Except.ok d →
    l.lookup k = some (PyVal.pylist xs) →
    ∃ ys, flat_list xs = Except.ok ys ∧ d.lookup k = some (PyVal.pylist ys) := by
  intro l
  induction l with
  | nil => intro d _ hlk; simp [List.lookup] at hlk
  | cons kv rest ih =>
      obtain ⟨k1, v1⟩ := kv
      intro d h hlk
      by_cases hk : k = k1
      · subst hk
        rw [lookup_cons_self] at hlk
        have hv : v1 = PyVal.pylist xs := by cases hlk; rfl
        subst hv
        simp only [flat_fields] at h
        cases hfl : flat_list xs with
        | error e => rw [hfl] at h; simp at h
        | ok ys =>
            rw [hfl] at h
            cases hre : flat_fields req rest with
            | error e => rw [hre] at h; simp at h
            | ok d2 =>
                rw [hre] at h
                simp at h
                subst h
                exact ⟨ys, rfl, lookup_cons_self _ _ _⟩
      · rw [lookup_cons_ne _ _ _ _ hk] at hlk
        cases v1 with
        | pylist zs =>
            simp only [flat_fields] at h
            cases hfl : flat_list zs with
            | error e => rw [hfl] at h; simp at h
            | ok ys =>
                rw [hfl] at h
                cases hre : flat_fields req rest with
                | error e => rw [hre] at h; simp at h
                | ok d2 =>
                    rw [hre] at h
                    simp at h
                    subst h
                    obtain ⟨ys2, h1, h2⟩ := ih d2 hre hlk
                    exact ⟨ys2, h1, by rw [lookup_cons_ne _ _ _ _ hk]; exact h2⟩
        | none =>
            simp only [flat_fields] at h
            by_cases hc1 : (req.getD []).contains k1 = true
            · rw [if_pos hc1] at h; simp at h
            · rw [if_neg hc1] at h
              exact ih d h hlk
        | prim s =>
            simp only [flat_fields] at h
            cases hcf : create_flat_dict (PyVal.prim s) with
            | error e => rw [hcf] at h; simp at h
            | ok w =>
                rw [hcf] at h
                cases hre : flat_fields req rest with
                | error e => rw [hre] at h; simp at h
                | ok d2 =>
                    rw [hre] at h
                    simp at h
                    subst h
                    obtain ⟨ys2, h1, h2⟩ := ih d2 hre hlk
                    exact ⟨ys2, h1, by rw [lookup_cons_ne _ _ _ _ hk]; exact h2⟩
        | int n =>
            simp only [flat_fields] at h
            cases hcf : create_flat_dict (PyVal.int n) with
            | error e => rw [hcf] at h; simp at h
            | ok w =>
                rw [hcf] at h
                cases hre : flat_fields req rest with
                | error e => rw [hre] at h; simp at h
                | ok d2 =>
                    rw [hre] at h
                    simp at h
                    subst h
                    obtain ⟨ys2, h1, h2⟩ := ih d2 hre hlk
                    exact ⟨ys2, h1, by rw [lookup_cons_ne _ _ _ _ hk]; exact h2⟩
        | pydict d0 =>
            simp only [flat_fields] at h
            cases hcf : create_flat_dict (PyVal.pydict d0) with
            | error e => rw [hcf] at h; simp at h
            | ok w =>
                rw [hcf] at h
                cases hre : flat_fields req rest with
                | error e => rw [hre] at h; simp at h
                | ok d2 =>
                    rw [hre] at h
                    simp at h
                    subst h
                    obtain ⟨ys2, h1, h2⟩ := ih d2 hre hlk
                    exact ⟨ys2, h1, by rw [lookup_cons_ne _ _ _ _ hk]; exact h2⟩
        | inst c r f =>
            simp only [flat_fields] at h
            cases hcf : create_flat_dict (PyVal.inst c r f) with
            | error e => rw [hcf] at h; simp at h
            | ok w =>
                rw [hcf] at h
                cases hre : flat_fields req rest with
                | error e => rw [hre] at h; simp at h
                | ok d2 =>
                    rw [hre] at h
                    simp at h
                    subst h
                    obtain ⟨ys2, h1, h2⟩ := ih d2 hre hlk
                    exact ⟨ys2, h1, by rw [lookup_cons_ne _ _ _ _ hk]; exact h2⟩

theorem flat_list_spec : ∀ (l : List PyVal),
    flat_list l = List.mapM' create_flat_dict (l.filter (fun x => !(isNoneB x))) := by
  intro l
  induction l with
  | nil => simp [flat_list, List.mapM', pure, Except.pure]
  | cons x xs ih =>
      cases x with
      | none =>
          rw [show List.filter (fun x => !(isNoneB x)) (PyVal.none :: xs)
            = List.filter (fun x => !(isNoneB x)) xs from by simp [isNoneB]]
          simp only [flat_list]
          exact ih
      | prim s =>
          rw [show List.filter (fun x => !(isNoneB x)) (PyVal.prim s :: xs)
            = PyVal.prim s :: List.filter (fun x => !(isNoneB x)) xs from by
              simp [isNoneB]]
          simp only [flat_list, List.mapM', Bind.bind, Except.bind]
          cases hcf : create_flat_dict (PyVal.prim s) with
          | error e => simp
          | ok w =>
              rw [ih]
              cases hr : List.mapM' create_flat_dict
                  (List.filter (fun x => !(isNoneB x)) xs) with
              | error e => simp [Functor.map, Except.map]
              | ok ys => simp [Functor.map, Except.map, pure, Except.pure]
      | int n =>
          rw [show List.filter (fun x => !(isNoneB x)) (PyVal.int n :: xs)
            = PyVal.int n :: List.filter (fun x => !(isNoneB x)) xs from by
              simp [isNoneB]]
          simp only [flat_list, List.mapM', Bind.bind, Except.bind]
          cases hcf : create_flat_dict (PyVal.int n) with
          | error e => simp
          | ok w =>
              rw [ih]
              cases hr : List.mapM' create_flat_dict
                  (List.filter (fun x => !(isNoneB x)) xs) with
              | error e => simp [Functor.map, Except.map]
              | ok ys => simp [Functor.map, Except.map, pure, Except.pure]
      | pylist zs =>
          rw [show List.filter (fun x => !(isNoneB x)) (PyVal.pylist zs :: xs)
            = PyVal.pylist zs :: List.filter (fun x => !(isNoneB x)) xs from by
              simp [isNoneB]]
          simp only [flat_list, List.mapM', Bind.bind, Except.bind]
          cases hcf : create_flat_dict (PyVal.pylist zs) with
          | error e => simp
          | ok w =>
              rw [ih]
              cases hr : List.mapM' create_flat_dict
                  (List.filter (fun x => !(isNoneB x)) xs) with
              | error e => simp [Functor.map, Except.map]
              | ok ys => simp [Functor.map, Except.map, pure, Except.pure]
      | pydict d0 =>
          rw [show List.filter (fun x => !(isNoneB x)) (PyVal.pydict d0 :: xs)
            = PyVal.pydict d0 :: List.filter (fun x => !(isNoneB x)) xs from by
              simp [isNoneB]]
          simp only [flat_list, List.mapM', Bind.bind, Except.bind]
          cases hcf : create_flat_dict (PyVal.pydict d0) with
          | error e => simp
          | ok w =>
              rw [ih]
              cases hr : List.mapM' create_flat_dict
                  (List.filter (fun x => !(isNoneB x)) xs) with
              | error e => simp [Functor.map, Except.map]
              | ok ys => simp [Functor.map, Except.map, pure, Except.pure]
      | inst c r f =>
          rw [show List.filter (fun x => !(isNoneB x)) (PyVal.inst c r f :: xs)
            = PyVal.inst c r f :: List.filter (fun x => !(isNoneB x)) xs from by
              simp [isNoneB]]
          simp only [flat_list, List.mapM', Bind.bind, Except.bind]
          cases hcf : create_flat_dict (PyVal.inst c r f) with
          | error e => simp
          | ok w =>
              rw [ih]
              cases hr : List.mapM' create_flat_dict
                  (List.filter (fun x => !(isNoneB x)) xs) with
              | error e => simp [Functor.map, Except.map]
              | ok ys => simp [Functor.map, Except.map, pure, Except.pure]

/-- C1 (counterexample): flattening a `Pet` whose required `name` is null
raises the required-field error, and the error message names the offending
property but does not name the model (`Pet` is not part of the message). -/
theorem c1_counterexample :
    create_flat_dict (PyVal.inst "Pet" (some ["name"]) [("name", PyVal.none)])
      = Except.error "Required field name can not be None" ∧
    ("name".toList <:+: "Required field name can not be None".toList) ∧
    ¬ ("Pet".toList <:+: "Required field name can not be None".toList) := by
  refine ⟨?_, by decide, by decide⟩
  simp [create_flat_dict, flat_fields]

/-- C1 (amended): a declared property holding null makes flattening fail,
when the property is in the model's required set, with a
`RequiredFieldNullError` naming an offending required-null property (of
this instance or of a nested value reached by the traversal) — but not the
model; otherwise the property is omitted entirely from the flattened
output mapping, so a null value is never emitted. -/
theorem c1_required_null (cls : String) (req : Option (List String))
    (fields : List (String × PyVal)) (k : String)
    (hnd : (fields.map Prod.fst).Nodup)
    (hlk : fields.lookup k = some PyVal.none) :
    ((req.getD []).contains k = true →
      ∃ p, create_flat_dict (PyVal.inst cls req fields)
        = Except.error ("Required field " ++ p ++ " can not be None") ∧
        offending (PyVal.inst cls req fields) p) ∧
    ((req.getD []).contains k = false →
      ∀ d, create_flat_dict (PyVal.inst cls req fields) = Except.ok (PyVal.pydict d) →
        d.lookup k = Option.none) := by
  constructor
  · intro hc
    cases hf : flat_fields req fields with
    | ok d => exact absurd hf (flat_fields_req_none req k fields hlk hc d)
    | error e =>
        have hcd : create_flat_dict (PyVal.inst cls req fields)
            = Except.error e := by
          simp only [create_flat_dict, hf]
        obtain ⟨p, hp, hoff⟩ := create_flat_dict_error _ e hcd
        exact ⟨p, by rw [hcd, hp], hoff⟩
  · intro hc d hok
    simp only [create_flat_dict] at hok
    cases hf : flat_fields req fields with
    | error e => rw [hf] at hok; simp at hok
    | ok d2 =>
        rw [hf] at hok
        simp at hok
        subst hok
        exact lookup_eq_none_of_not_mem d2 k
          (flat_fields_null_dropped req k fields d2 hnd hlk hc hf)

/-- C1 (witness): the required case fails with the message naming `name`;
the non-required case omits the null property from the output. -/
theorem c1_witness :
    create_flat_dict (PyVal.inst "Pet" (some ["name"]) [("name", PyVal.none)])
      = Except.error "Required field name can not be None" ∧
    ([("id", PyVal.int 3)] : List (String × PyVal)).lookup "name" = Option.none := by
  constructor
  · obtain ⟨p, hp, hoff⟩ := (c1_required_null "Pet" (some ["name"])
      [("name", PyVal.none)] "name" (by decide) (by simp [List.lookup])).1
      (by decide)
    simp [create_flat_dict, flat_fields]
  · exact (c1_required_null "Pet" (some ["id"])
      [("name", PyVal.none), ("id", PyVal.int 3)] "name" (by decide)
      (by simp [List.lookup])).2 (by decide)
      [("id", PyVal.int 3)]
      (by simp [create_flat_dict, flat_fields, flat_list])

/-- C9: a sequence-valued property flattens to the element-wise recursive
flattening of its non-null elements, in order (`flat_list` is exactly
`mapM create_flat_dict` over the null-filtered sequence). -/
theorem c9_sequence_flatten (cls : String) (req : Option (List String))
    (fields : List (String × PyVal)) (k : String) (xs : List PyVal)
    (d : List (String × PyVal))
    (hlk : fields.lookup k = some (PyVal.pylist xs))
    (hok : create_flat_dict (PyVal.inst cls req fields)
      = Except.ok (PyVal.pydict d)) :
    ∃ ys, d.lookup k = some (PyVal.pylist ys) ∧
      List.mapM' create_flat_dict (xs.filter (fun x => !(isNoneB x)))
        = Except.ok ys := by
  simp only [create_flat_dict] at hok
  cases hf : flat_fields req fields with
  | error e => rw [hf] at hok; simp at hok
  | ok d2 =>
      rw [hf] at hok
      simp at hok
      subst hok
      obtain ⟨ys, h1, h2⟩ := flat_fields_ok_lookup_list req k xs fields d2 hf hlk
      exact ⟨ys, h2, by rw [← flat_list_spec]; exact h1⟩

/-- C9 (witness): `tags = [T1, None, T2]` flattens to exactly
`[flatten T1, flatten T2]`. -/
theorem c9_witness :
    ([("tags", PyVal.pylist
        [PyVal.pydict [("id", PyVal.int 1)], PyVal.pydict [("id", PyVal.int 2)]])]
        : List (String × PyVal)).lookup "tags"
      = some (PyVal.pylist
          [PyVal.pydict [("id", PyVal.int 1)], PyVal.pydict [("id", PyVal.int 2)]]) ∧
    List.mapM' create_flat_dict
        (([PyVal.inst "Tag" Option.none [("id", PyVal.int 1)], PyVal.none,
           PyVal.inst "Tag" Option.none [("id", PyVal.int 2)]]).filter
          (fun x => !(isNoneB x)))
      = Except.ok
          [PyVal.pydict [("id", PyVal.int 1)], PyVal.pydict [("id", PyVal.int 2)]] := by
  obtain ⟨ys, h1, h2⟩ := c9_sequence_flatten "Pet" Option.none
    [("tags", PyVal.pylist
      [PyVal.inst "Tag" Option.none [("id", PyVal.int 1)], PyVal.none,
       PyVal.inst "Tag" Option.none [("id", PyVal.int 2)]])]
    "tags"
    [PyVal.inst "Tag" Option.none [("id", PyVal.int 1)], PyVal.none,
     PyVal.inst "Tag" Option.none [("id", PyVal.int 2)]]
    [("tags", PyVal.pylist
      [PyVal.pydict [("id", PyVal.int 1)], PyVal.pydict [("id", PyVal.int 2)]])]
    (by simp [List.lookup])
    (by simp [create_flat_dict, flat_fields, flat_list])
  have hh := h1
  rw [show ([("tags", PyVal.pylist
      [PyVal.pydict [("id", PyVal.int 1)], PyVal.pydict [("id", PyVal.int 2)]])]
      : List (String × PyVal)).lookup "tags"
    = some (PyVal.pylist
        [PyVal.pydict [("id", PyVal.int 1)], PyVal.pydict [("id", PyVal.int 2)]])
    from rfl] at hh
  have hys : ys = [PyVal.pydict [("id", PyVal.int 1)],
      PyVal.pydict [("id", PyVal.int 2)]] := by
    injection hh with hh2
    injection hh2 with hh3
    exact hh3.symm
  subst hys
  exact ⟨h1, h2⟩

/-! ## Equality lemmas and claim C5 -/

theorem mem_of_lookup_some {α : Type} (d : List (String × α)) (k : String) (v : α)
    (h : d.lookup k = some v) : (k, v) ∈ d := by
  induction d with
  | nil => simp [List.lookup] at h
  | cons kv rest ih =>
      obtain ⟨k1, v1⟩ := kv
      by_cases hk : k = k1
      · subst hk
        rw [lookup_cons_self] at h
        cases h
        exact List.mem_cons_self _ _
      · rw [lookup_cons_ne _ _ _ _ hk] at h
        exact List.mem_cons_of_mem _ (ih h)

theorem lookup_of_mem_nodup {α : Type} (d : List (String × α)) (k : String) (v : α)
    (hnd : (d.map Prod.fst).Nodup) (h : (k, v) ∈ d) : d.lookup k = some v := by
  induction d with
  | nil => simp at h
  | cons kv rest ih =>
      obtain ⟨k1, v1⟩ := kv
      rw [List.map_cons, List.nodup_cons] at hnd
      rcases List.mem_cons.mp h with h1 | h1
      · cases h1
        exact lookup_cons_self _ _ _
      · have hk : k ≠ k1 := by
          intro hh
          subst hh
          exact hnd.1 (by simpa using List.mem_map_of_mem Prod.fst h1)
        rw [lookup_cons_ne _ _ _ _ hk]
        exact ih hnd.2 h1

theorem pyEqLookup_iff (k : String) (v : PyVal) :
    ∀ (d2 : List (String × PyVal)),
    pyEqLookup k v d2 = true ↔ ∃ w, d2.lookup k = some w ∧ pyEq v w = true := by
  intro d2
  induction d2 with
  | nil => simp [pyEqLookup, List.lookup]
  | cons kw rest ih =>
      obtain ⟨k2, w⟩ := kw
      by_cases hk : k = k2
      · subst hk
        simp only [pyEqLookup, if_pos rfl, lookup_cons_self]
        constructor
        · intro h
          exact ⟨w, rfl, h⟩
        · rintro ⟨w2, hw2, hpe⟩
          cases hw2
          exact hpe
      · simp only [pyEqLookup, if_neg hk]
        rw [lookup_cons_ne _ _ _ _ hk]
        exact ih

theorem pyEqDictSub_iff :
    ∀ (d1 d2 : List (String × PyVal)),
    pyEqDictSub true d1 d2 = true ↔
      ∀ kv ∈ d1, kv.1 ≠ "_raw" → pyEqLookup kv.1 kv.2 d2 = true := by
  intro d1 d2
  induction d1 with
  | nil => simp [pyEqDictSub]
  | cons kv rest ih =>
      obtain ⟨k, v⟩ := kv
      by_cases hraw : k = "_raw"
      · subst hraw
        rw [show pyEqDictSub true (("_raw", v) :: rest) d2
          = pyEqDictSub true rest d2 from by
            simp [pyEqDictSub]]
        rw [ih]
        constructor
        · intro h kv hkv hne
          rcases List.mem_cons.mp hkv with h1 | h1
          · exact absurd (by rw [h1]) hne
          · exact h kv h1 hne
        · intro h kv hkv hne
          exact h kv (List.mem_cons_of_mem _ hkv) hne
      · rw [show pyEqDictSub true ((k, v) :: rest) d2
          = (pyEqLookup k v d2 && pyEqDictSub true rest d2) from by
            simp [pyEqDictSub, hraw]]
        rw [Bool.and_eq_true, ih]
        constructor
        · rintro ⟨h1, h2⟩ kv hkv hne
          rcases List.mem_cons.mp hkv with hh | hh
          · rw [hh]
            exact h1
          · exact h2 kv hh hne
        · intro h
          exact ⟨h (k, v) (List.mem_cons_self _ _) hraw,
            fun kv hkv hne => h kv (List.mem_cons_of_mem _ hkv) hne⟩

theorem filter_fst_length {α : Type} (d : List (String × α)) :
    (d.filter (fun kv => kv.1 ≠ "_raw")).length
      = ((d.map Prod.fst).filter (fun k => k ≠ "_raw")).length := by
  induction d with
  | nil => rfl
  | cons kv rest ih =>
      obtain ⟨k, v⟩ := kv
      simp only [ne_eq, decide_not] at ih
      by_cases hraw : k = "_raw"
      · subst hraw
        simp [List.filter_cons, ih]
      · simp [List.filter_cons, hraw, ih]

theorem compare_inst_eq (c1 c2 : String) (r1 r2 : Option (List String))
    (d1 d2 : List (String × PyVal)) :
    compare (PyVal.inst c1 r1 d1) (PyVal.inst c2 r2 d2)
      = ((d1.filter (fun kv => kv.1 ≠ "_raw")).length
          == (d2.filter (fun kv => kv.1 ≠ "_raw")).length
        && pyEqDictSub true d1 d2) := by
  rw [compare.eq_def]

/-- C5: `compare` is false whenever either side lacks a `__dict__`; for two
instances (with dict keys unique, as Python dicts are) it holds exactly when
the attribute mappings agree extensionally outside the `_raw` key, each
common value compared by its own `==`; and it never depends on the classes
(descriptors) of the two instances. -/
theorem c5_compare_spec :
    (∀ a b : PyVal, (hasDict a = false ∨ hasDict b = false) → compare a b = false) ∧
    (∀ c1 r1 d1 c2 r2 d2, (d1.map Prod.fst).Nodup → (d2.map Prod.fst).Nodup →
      (compare (PyVal.inst c1 r1 d1) (PyVal.inst c2 r2 d2) = true ↔
        ((∀ k v, k ≠ "_raw" → d1.lookup k = some v →
            ∃ w, d2.lookup k = some w ∧ pyEq v w = true) ∧
         (∀ k w, k ≠ "_raw" → d2.lookup k = some w →
            ∃ v, d1.lookup k = some v ∧ pyEq v w = true)))) ∧
    (∀ c1 r1 c2 r2 c3 r3 c4 r4 d1 d2,
      compare (PyVal.inst c1 r1 d1) (PyVal.inst c2 r2 d2)
        = compare (PyVal.inst c3 r3 d1) (PyVal.inst c4 r4 d2)) := by
  refine ⟨?_, ?_, ?_⟩
  · intro a b h
    cases a <;> cases b <;> (try simp [hasDict] at h) <;>
      (try (rw [compare.eq_def]))
  · intro c1 r1 d1 c2 r2 d2 hnd1 hnd2
    rw [compare_inst_eq, Bool.and_eq_true, beq_iff_eq, pyEqDictSub_iff]
    rw [filter_fst_length, filter_fst_length]
    constructor
    · rintro ⟨hlen, hsub⟩
      have bullet1 : ∀ k v, k ≠ "_raw" → d1.lookup k = some v →
          ∃ w, d2.lookup k = some w ∧ pyEq v w = true := by
        intro k v hraw hlk
        exact (pyEqLookup_iff k v d2).mp
          (hsub (k, v) (mem_of_lookup_some d1 k v hlk) hraw)
      refine ⟨bullet1, ?_⟩
      have hss : ∀ k, k ∈ (d1.map Prod.fst).filter (fun k => k ≠ "_raw") →
          k ∈ (d2.map Prod.fst).filter (fun k => k ≠ "_raw") := by
        intro k hk
        rw [List.mem_filter] at hk ⊢
        obtain ⟨hk1, hk2⟩ := hk
        have hraw : k ≠ "_raw" := by simpa using hk2
        obtain ⟨v, hv⟩ : ∃ v, d1.lookup k = some v := by
          cases hc : d1.lookup k with
          | none =>
              exact absurd ((lookup_isSome_iff d1 k).mpr hk1) (by rw [hc]; simp)
          | some v => exact ⟨v, rfl⟩
        obtain ⟨w, hw, _⟩ := bullet1 k v hraw hv
        exact ⟨(lookup_isSome_iff d2 k).mp (by rw [hw]; rfl), hk2⟩
      have hnd1f : ((d1.map Prod.fst).filter (fun k => k ≠ "_raw")).Nodup :=
        hnd1.filter _
      have hnd2f : ((d2.map Prod.fst).filter (fun k => k ≠ "_raw")).Nodup :=
        hnd2.filter _
      have hfinsub : ((d1.map Prod.fst).filter (fun k => k ≠ "_raw")).toFinset
          ⊆ ((d2.map Prod.fst).filter (fun k => k ≠ "_raw")).toFinset := by
        intro x hx
        exact List.mem_toFinset.mpr (hss x (List.mem_toFinset.mp hx))
      have hfineq : ((d1.map Prod.fst).filter (fun k => k ≠ "_raw")).toFinset
          = ((d2.map Prod.fst).filter (fun k => k ≠ "_raw")).toFinset := by
        apply Finset.eq_of_subset_of_card_le hfinsub
        rw [List.toFinset_card_of_nodup hnd1f, List.toFinset_card_of_nodup hnd2f]
        rw [hlen]
      intro k w hraw hlkw
      have hk2 : k ∈ (d2.map Prod.fst).filter (fun k => k ≠ "_raw") := by
        rw [List.mem_filter]
        refine ⟨(lookup_isSome_iff d2 k).mp (by rw [hlkw]; rfl), by simpa using hraw⟩
      have hk1 : k ∈ (d1.map Prod.fst).filter (fun k => k ≠ "_raw") := by
        have hfin := List.mem_toFinset.mpr hk2
        rw [← hfineq] at hfin
        exact List.mem_toFinset.mp hfin
      obtain ⟨v, hv⟩ : ∃ v, d1.lookup k = some v := by
        rw [List.mem_filter] at hk1
        cases hc : d1.lookup k with
        | none =>
            exact absurd ((lookup_isSome_iff d1 k).mpr hk1.1) (by rw [hc]; simp)
        | some v => exact ⟨v, rfl⟩
      obtain ⟨w2, hw2, hpe⟩ := bullet1 k v hraw hv
      have : w2 = w := by
        rw [hlkw] at hw2
        cases hw2
        rfl
      subst this
      exact ⟨v, hv, hpe⟩
    · rintro ⟨bullet1, bullet2⟩
      have hss : ∀ k, k ∈ (d1.map Prod.fst).filter (fun k => k ≠ "_raw") →
          k ∈ (d2.map Prod.fst).filter (fun k => k ≠ "_raw") := by
        intro k hk
        rw [List.mem_filter] at hk ⊢
        obtain ⟨hk1, hk2⟩ := hk
        have hraw : k ≠ "_raw" := by simpa using hk2
        obtain ⟨v, hv⟩ : ∃ v, d1.lookup k = some v := by
          cases hc : d1.lookup k with
          | none =>
              exact absurd ((lookup_isSome_iff d1 k).mpr hk1) (by rw [hc]; simp)
          | some v => exact ⟨v, rfl⟩
        obtain ⟨w, hw, _⟩ := bullet1 k v hraw hv
        exact ⟨(lookup_isSome_iff d2 k).mp (by rw [hw]; rfl), hk2⟩
      have hss2 : ∀ k, k ∈ (d2.map Prod.fst).filter (fun k => k ≠ "_raw") →
          k ∈ (d1.map Prod.fst).filter (fun k => k ≠ "_raw") := by
        intro k hk
        rw [List.mem_filter] at hk ⊢
        obtain ⟨hk1, hk2⟩ := hk
        have hraw : k ≠ "_raw" := by simpa using hk2
        obtain ⟨w, hw⟩ : ∃ w, d2.lookup k = some w := by
          cases hc : d2.lookup k with
          | none =>
              exact absurd ((lookup_isSome_iff d2 k).mpr hk1) (by rw [hc]; simp)
          | some w => exact ⟨w, rfl⟩
        obtain ⟨v, hv, _⟩ := bullet2 k w hraw hw
        exact ⟨(lookup_isSome_iff d1 k).mp (by rw [hv]; rfl), hk2⟩
      constructor
      · have hnd1f : ((d1.map Prod.fst).filter (fun k => k ≠ "_raw")).Nodup :=
          hnd1.filter _
        have hnd2f : ((d2.map Prod.fst).filter (fun k => k ≠ "_raw")).Nodup :=
          hnd2.filter _
        have hfineq : ((d1.map Prod.fst).filter (fun k => k ≠ "_raw")).toFinset
            = ((d2.map Prod.fst).filter (fun k => k ≠ "_raw")).toFinset := by
          apply Finset.Subset.antisymm
          · intro x hx
            exact List.mem_toFinset.mpr (hss x (List.mem_toFinset.mp hx))
          · intro x hx
            exact List.mem_toFinset.mpr (hss2 x (List.mem_toFinset.mp hx))
        rw [← List.toFinset_card_of_nodup hnd1f, ← List.toFinset_card_of_nodup hnd2f,
          hfineq]
      · intro kv hkv hraw
        rw [pyEqLookup_iff]
        have hmem : (kv.1, kv.2) ∈ d1 := by
          rw [show ((kv.1, kv.2) : String × PyVal) = kv from rfl]
          exact hkv
        exact bullet1 kv.1 kv.2 hraw (lookup_of_mem_nodup d1 kv.1 kv.2 hnd1 hmem)
  · intro c1 r1 c2 r2 c3 r3 c4 r4 d1 d2
    rw [compare_inst_eq, compare_inst_eq]

/-- C5 (witness): a non-instance is never equal to an instance; two
instances of different classes with the same visible attributes (and
differing `_raw` bookkeeping) compare equal. -/
theorem c5_witness :
    compare (PyVal.int 3) (PyVal.inst "A" Option.none []) = false ∧
    compare (PyVal.inst "A" Option.none [("x", PyVal.int 1), ("_raw", PyVal.int 9)])
      (PyVal.inst "B" (some ["x"]) [("x", PyVal.int 1), ("_raw", PyVal.int 8)])
      = true := by
  obtain ⟨h1, h2, h3⟩ := c5_compare_spec
  constructor
  · exact h1 (PyVal.int 3) (PyVal.inst "A" Option.none []) (Or.inl rfl)
  · apply (h2 "A" Option.none [("x", PyVal.int 1), ("_raw", PyVal.int 9)]
      "B" (some ["x"]) [("x", PyVal.int 1), ("_raw", PyVal.int 8)]
      (by decide) (by decide)).mpr
    constructor
    · intro k v hraw hlk
      by_cases hk : k = "x"
      · subst hk
        rw [lookup_cons_self] at hlk
        have hv : v = PyVal.int 1 := by cases hlk; rfl
        subst hv
        refine ⟨PyVal.int 1, lookup_cons_self _ _ _, ?_⟩
        rw [pyEq.eq_def]
        simp
      · rw [lookup_cons_ne _ _ _ _ hk] at hlk
        by_cases hk2 : k = "_raw"
        · exact absurd hk2 hraw
        · rw [lookup_cons_ne _ _ _ _ hk2] at hlk
          simp [List.lookup] at hlk
    · intro k w hraw hlk
      by_cases hk : k = "x"
      · subst hk
        rw [lookup_cons_self] at hlk
        have hv : w = PyVal.int 1 := by cases hlk; rfl
        subst hv
        refine ⟨PyVal.int 1, lookup_cons_self _ _ _, ?_⟩
        rw [pyEq.eq_def]
        simp
      · rw [lookup_cons_ne _ _ _ _ hk] at hlk
        by_cases hk2 : k = "_raw"
        · exact absurd hk2 hraw
        · rw [lookup_cons_ne _ _ _ _ hk2] at hlk
          simp [List.lookup] at hlk

/-! ## Heap-frame lemmas and claim C10 -/

theorem cellGet_setk_ne (σ : Store) (r : Nat) (k : String) (v : HVal) (i : Nat)
    (h : i ≠ r) : cellGet (setk σ r k v) i = cellGet σ i := by
  unfold setk cellGet
  rw [List.get?_set_ne _ _ (fun hh => h hh.symm)]

theorem setk_length (σ : Store) (r : Nat) (k : String) (v : HVal) :
    (setk σ r k v).length = σ.length := by
  unfold setk
  exact List.length_set σ _ _

theorem cellGet_popk_ne (σ : Store) (r : Nat) (k : String) (i : Nat)
    (h : i ≠ r) : cellGet (popk σ r k) i = cellGet σ i := by
  unfold popk cellGet
  rw [List.get?_set_ne _ _ (fun hh => h hh.symm)]

theorem popk_length (σ : Store) (r : Nat) (k : String) :
    (popk σ r k).length = σ.length := by
  unfold popk
  exact List.length_set σ _ _

theorem cellGet_append (σ : Store) (d : HDict) (i : Nat) (h : i < σ.length) :
    cellGet (σ ++ [d]) i = cellGet σ i := by
  unfold cellGet
  rw [List.get?_append h]

theorem hflat_list_frame_of (fuel : Nat)
    (hP : ∀ σ v r σ', hflat fuel σ v = FuelRes.ok (r, σ') →
      σ.length ≤ σ'.length ∧ ∀ i, i < σ.length → cellGet σ' i = cellGet σ i) :
    ∀ (l : List HVal) (σ : Store) (ys : List HVal) (σ' : Store),
      hflat_list fuel σ l = FuelRes.ok (ys, σ') →
      σ.length ≤ σ'.length ∧ ∀ i, i < σ.length → cellGet σ' i = cellGet σ i := by
  intro l
  induction l with
  | nil =>
      intro σ ys σ' h
      simp only [hflat_list] at h
      cases h
      exact ⟨Nat.le_refl _, fun i _ => rfl⟩
  | cons x xs ih =>
      intro σ ys σ' h
      cases x with
      | none =>
          simp only [hflat_list] at h
          exact ih σ ys σ' h
      | prim s =>
          simp only [hflat_list] at h
          cases hv : hflat fuel σ (HVal.prim s) with
          | out => rw [hv] at h; exact absurd h (by simp)
          | err e => rw [hv] at h; exact absurd h (by simp)
          | ok rr =>
              rw [hv] at h
              have h2 : (match hflat_list fuel rr.2 xs with
                  | FuelRes.out => FuelRes.out
                  | FuelRes.err e => FuelRes.err e
                  | FuelRes.ok rs => FuelRes.ok (rr.1 :: rs.1, rs.2))
                  = FuelRes.ok (ys, σ') := h
              cases hl : hflat_list fuel rr.2 xs with
              | out => rw [hl] at h2; exact absurd h2 (by simp)
              | err e => rw [hl] at h2; exact absurd h2 (by simp)
              | ok rs =>
                  rw [hl] at h2
                  have hσ : σ' = rs.2 := by cases h2; rfl
                  subst hσ
                  obtain ⟨hl1, hc1⟩ := hP σ (HVal.prim s) rr.1 rr.2 (by rw [← hv])
                  obtain ⟨hl2, hc2⟩ := ih rr.2 rs.1 rs.2 (by rw [← hl])
                  refine ⟨Nat.le_trans hl1 hl2, ?_⟩
                  intro i hi
                  rw [hc2 i (Nat.lt_of_lt_of_le hi hl1), hc1 i hi]
      | pylist zs =>
          simp only [hflat_list] at h
          cases hv : hflat fuel σ (HVal.pylist zs) with
          | out => rw [hv] at h; exact absurd h (by simp)
          | err e => rw [hv] at h; exact absurd h (by simp)
          | ok rr =>
              rw [hv] at h
              have h2 : (match hflat_list fuel rr.2 xs with
                  | FuelRes.out => FuelRes.out
                  | FuelRes.err e => FuelRes.err e
                  | FuelRes.ok rs => FuelRes.ok (rr.1 :: rs.1, rs.2))
                  = FuelRes.ok (ys, σ') := h
              cases hl : hflat_list fuel rr.2 xs with
              | out => rw [hl] at h2; exact absurd h2 (by simp)
              | err e => rw [hl] at h2; exact absurd h2 (by simp)
              | ok rs =>
                  rw [hl] at h2
                  have hσ : σ' = rs.2 := by cases h2; rfl
                  subst hσ
                  obtain ⟨hl1, hc1⟩ := hP σ (HVal.pylist zs) rr.1 rr.2 (by rw [← hv])
                  obtain ⟨hl2, hc2⟩ := ih rr.2 rs.1 rs.2 (by rw [← hl])
                  refine ⟨Nat.le_trans hl1 hl2, ?_⟩
                  intro i hi
                  rw [hc2 i (Nat.lt_of_lt_of_le hi hl1), hc1 i hi]
      | pydict d0 =>
          simp only [hflat_list] at h
          cases hv : hflat fuel σ (HVal.pydict d0) with
          | out => rw [hv] at h; exact absurd h (by simp)
          | err e => rw [hv] at h; exact absurd h (by simp)
          | ok rr =>
              rw [hv] at h
              have h2 : (match hflat_list fuel rr.2 xs with
                  | FuelRes.out => FuelRes.out
                  | FuelRes.err e => FuelRes.err e
                  | FuelRes.ok rs => FuelRes.ok (rr.1 :: rs.1, rs.2))
                  = FuelRes.ok (ys, σ') := h
              cases hl : hflat_list fuel rr.2 xs with
              | out => rw [hl] at h2; exact absurd h2 (by simp)
              | err e => rw [hl] at h2; exact absurd h2 (by simp)
              | ok rs =>
                  rw [hl] at h2
                  have hσ : σ' = rs.2 := by cases h2; rfl
                  subst hσ
                  obtain ⟨hl1, hc1⟩ := hP σ (HVal.pydict d0) rr.1 rr.2 (by rw [← hv])
                  obtain ⟨hl2, hc2⟩ := ih rr.2 rs.1 rs.2 (by rw [← hl])
                  refine ⟨Nat.le_trans hl1 hl2, ?_⟩
                  intro i hi
                  rw [hc2 i (Nat.lt_of_lt_of_le hi hl1), hc1 i hi]
      | inst c r dref =>
          simp only [hflat_list] at h
          cases hv : hflat fuel σ (HVal.inst c r dref) with
          | out => rw [hv] at h; exact absurd h (by simp)
          | err e => rw [hv] at h; exact absurd h (by simp)
          | ok rr =>
              rw [hv] at h
              have h2 : (match hflat_list fuel rr.2 xs with
                  | FuelRes.out => FuelRes.out
                  | FuelRes.err e => FuelRes.err e
                  | FuelRes.ok rs => FuelRes.ok (rr.1 :: rs.1, rs.2))
                  = FuelRes.ok (ys, σ') := h
              cases hl : hflat_list fuel rr.2 xs with
              | out => rw [hl] at h2; exact absurd h2 (by simp)
              | err e => rw [hl] at h2; exact absurd h2 (by simp)
              | ok rs =>
                  rw [hl] at h2
                  have hσ : σ' = rs.2 := by cases h2; rfl
                  subst hσ
                  obtain ⟨hl1, hc1⟩ := hP σ (HVal.inst c r dref) rr.1 rr.2 (by rw [← hv])
                  obtain ⟨hl2, hc2⟩ := ih rr.2 rs.1 rs.2 (by rw [← hl])
                  refine ⟨Nat.le_trans hl1 hl2, ?_⟩
                  intro i hi
                  rw [hc2 i (Nat.lt_of_lt_of_le hi hl1), hc1 i hi]

theorem hflat_fields_frame_of (fuel : Nat)
    (hP : ∀ σ v r σ', hflat fuel σ v = FuelRes.ok (r, σ') →
      σ.length ≤ σ'.length ∧ ∀ i, i < σ.length → cellGet σ' i = cellGet σ i) :
    ∀ (d : HDict) (σ : Store) (cref : Nat) (req : Option (List String)) (σ' : Store),
      hflat_fields fuel σ cref req d = FuelRes.ok σ' →
      σ.length ≤ σ'.length ∧
        ∀ i, i < σ.length → i ≠ cref → cellGet σ' i = cellGet σ i := by
  intro d
  induction d with
  | nil =>
      intro σ cref req σ' h
      simp only [hflat_fields] at h
      cases h
      exact ⟨Nat.le_refl _, fun i _ _ => rfl⟩
  | cons kv rest ih =>
      obtain ⟨k, v⟩ := kv
      intro σ cref req σ' h
      cases v with
      | pylist xs =>
          simp only [hflat_fields] at h
          cases hl : hflat_list fuel σ xs with
          | out => rw [hl] at h; exact absurd h (by simp)
          | err e => rw [hl] at h; exact absurd h (by simp)
          | ok rr =>
              rw [hl] at h
              obtain ⟨hl1, hc1⟩ := hflat_list_frame_of fuel hP xs σ rr.1 rr.2
                (by rw [← hl])
              obtain ⟨hl2, hc2⟩ := ih (setk rr.2 cref k (HVal.pylist rr.1)) cref req σ' h
              rw [setk_length] at hl2
              refine ⟨Nat.le_trans hl1 hl2, ?_⟩
              intro i hi hne
              rw [hc2 i (by rw [setk_length]; exact Nat.lt_of_lt_of_le hi hl1) hne,
                cellGet_setk_ne _ _ _ _ _ hne, hc1 i hi]
      | none =>
          simp only [hflat_fields] at h
          by_cases hc : (req.getD []).contains k = true
          · rw [if_pos hc] at h
            exact absurd h (by simp)
          · rw [if_neg hc] at h
            obtain ⟨hl2, hc2⟩ := ih (popk σ cref k) cref req σ' h
            rw [popk_length] at hl2
            refine ⟨hl2, ?_⟩
            intro i hi hne
            rw [hc2 i (by rw [popk_length]; exact hi) hne,
              cellGet_popk_ne _ _ _ _ hne]
      | prim s =>
          simp only [hflat_fields] at h
          cases hv : hflat fuel σ (HVal.prim s) with
          | out => rw [hv] at h; exact absurd h (by simp)
          | err e => rw [hv] at h; exact absurd h (by simp)
          | ok rr =>
              rw [hv] at h
              obtain ⟨hl1, hc1⟩ := hP σ (HVal.prim s) rr.1 rr.2 (by rw [← hv])
              obtain ⟨hl2, hc2⟩ := ih (setk rr.2 cref k rr.1) cref req σ' h
              rw [setk_length] at hl2
              refine ⟨Nat.le_trans hl1 hl2, ?_⟩
              intro i hi hne
              rw [hc2 i (by rw [setk_length]; exact Nat.lt_of_lt_of_le hi hl1) hne,
                cellGet_setk_ne _ _ _ _ _ hne, hc1 i hi]
      | pydict d0 =>
          simp only [hflat_fields] at h
          cases hv : hflat fuel σ (HVal.pydict d0) with
          | out => rw [hv] at h; exact absurd h (by simp)
          | err e => rw [hv] at h; exact absurd h (by simp)
          | ok rr =>
              rw [hv] at h
              obtain ⟨hl1, hc1⟩ := hP σ (HVal.pydict d0) rr.1 rr.2 (by rw [← hv])
              obtain ⟨hl2, hc2⟩ := ih (setk rr.2 cref k rr.1) cref req σ' h
              rw [setk_length] at hl2
              refine ⟨Nat.le_trans hl1 hl2, ?_⟩
              intro i hi hne
              rw [hc2 i (by rw [setk_length]; exact Nat.lt_of_lt_of_le hi hl1) hne,
                cellGet_setk_ne _ _ _ _ _ hne, hc1 i hi]
      | inst c r dref =>
          simp only [hflat_fields] at h
          cases hv : hflat fuel σ (HVal.inst c r dref) with
          | out => rw [hv] at h; exact absurd h (by simp)
          | err e => rw [hv] at h; exact absurd h (by simp)
          | ok rr =>
              rw [hv] at h
              obtain ⟨hl1, hc1⟩ := hP σ (HVal.inst c r dref) rr.1 rr.2 (by rw [← hv])
              obtain ⟨hl2, hc2⟩ := ih (setk rr.2 cref k rr.1) cref req σ' h
              rw [setk_length] at hl2
              refine ⟨Nat.le_trans hl1 hl2, ?_⟩
              intro i hi hne
              rw [hc2 i (by rw [setk_length]; exact Nat.lt_of_lt_of_le hi hl1) hne,
                cellGet_setk_ne _ _ _ _ _ hne, hc1 i hi]

theorem hflat_frame : ∀ (fuel : Nat) (σ : Store) (v : HVal) (r : HVal) (σ' : Store),
    hflat fuel σ v = FuelRes.ok (r, σ') →
    σ.length ≤ σ'.length ∧ ∀ i, i < σ.length → cellGet σ' i = cellGet σ i := by
  intro fuel
  induction fuel with
  | zero =>
      intro σ v r σ' h
      simp only [hflat] at h
      exact absurd h (by simp)
  | succ f ihf =>
      intro σ v r σ' h
      cases v with
      | inst cls req dref =>
          simp only [hflat, alloc] at h
          cases hf : hflat_fields f (σ ++ [cellGet σ dref]) σ.length req
              (cellGet σ dref) with
          | out => rw [hf] at h; exact absurd h (by simp)
          | err e => rw [hf] at h; exact absurd h (by simp)
          | ok σ2 =>
              rw [hf] at h
              have hσ : σ' = σ2 := by cases h; rfl
              subst hσ
              obtain ⟨hl, hc⟩ := hflat_fields_frame_of f ihf (cellGet σ dref)
                (σ ++ [cellGet σ dref]) σ.length req σ' hf
              constructor
              · calc σ.length ≤ (σ ++ [cellGet σ dref]).length := by simp
                  _ ≤ σ'.length := hl
              · intro i hi
                rw [hc i (by simp; omega) (Nat.ne_of_lt hi),
                  cellGet_append σ _ i hi]
      | none =>
          simp only [hflat] at h
          cases h
          exact ⟨Nat.le_refl _, fun i _ => rfl⟩
      | prim s =>
          simp only [hflat] at h
          cases h
          exact ⟨Nat.le_refl _, fun i _ => rfl⟩
      | pylist xs =>
          simp only [hflat] at h
          cases h
          exact ⟨Nat.le_refl _, fun i _ => rfl⟩
      | pydict dref =>
          simp only [hflat] at h
          cases h
          exact ⟨Nat.le_refl _, fun i _ => rfl⟩

/-- C10: flattening never mutates its input: whenever the store-passing
`create_flat_dict` succeeds on an instance, every previously allocated
dictionary cell (the instance's own `__dict__` and those of all nested
instances) is unchanged in the resulting store, and the returned mapping
lives in a freshly allocated cell, not the instance's own. -/
theorem c10_flatten_no_mutation (fuel : Nat) (σ : Store) (cls : String)
    (req : Option (List String)) (dref : Nat) (r : HVal) (σ' : Store)
    (h : hflat fuel σ (HVal.inst cls req dref) = FuelRes.ok (r, σ')) :
    (∀ i, i < σ.length → cellGet σ' i = cellGet σ i) ∧
    ∃ cref, r = HVal.pydict cref ∧ σ.length ≤ cref := by
  refine ⟨(hflat_frame fuel σ _ r σ' h).2, ?_⟩
  cases fuel with
  | zero => simp only [hflat] at h; exact absurd h (by simp)
  | succ f =>
      simp only [hflat, alloc] at h
      cases hf : hflat_fields f (σ ++ [cellGet σ dref]) σ.length req
          (cellGet σ dref) with
      | out => rw [hf] at h; exact absurd h (by simp)
      | err e => rw [hf] at h; exact absurd h (by simp)
      | ok σ2 =>
          rw [hf] at h
          have hr : r = HVal.pydict σ.length := by cases h; rfl
          exact ⟨σ.length, hr, Nat.le_refl _⟩

/-- C10 (witness): flattening a one-property instance leaves the
pre-existing cell 0 untouched and returns a mapping in fresh cell 1. -/
theorem c10_witness :
    cellGet [[("id", HVal.prim "3")], [("id", HVal.prim "3")]] 0
      = cellGet [[("id", HVal.prim "3")]] 0 ∧
    HVal.pydict 1 = HVal.pydict 1 ∧
    ([[("id", HVal.prim "3")]] : Store).length ≤ 1 := by
  have hcomp : hflat 3 [[("id", HVal.prim "3")]] (HVal.inst "Pet" Option.none 0)
      = FuelRes.ok (HVal.pydict 1,
          [[("id", HVal.prim "3")], [("id", HVal.prim "3")]]) := by
    simp [hflat, hflat_fields, hflat_list, setk, popk, alloc, cellGet, List.set]
  obtain ⟨hcells, cref, hr, hle⟩ := c10_flatten_no_mutation 3
    [[("id", HVal.prim "3")]] "Pet" Option.none 0 (HVal.pydict 1)
    [[("id", HVal.prim "3")], [("id", HVal.prim "3")]] hcomp
  refine ⟨hcells 0 (by decide), rfl, ?_⟩
  injection hr with hh
  rw [hh]
  exact hle

end Bravado
